import Mathlib

/-!
Verification of the "Octup-Quadrolineated Throughput Engine": the kernel
allocator (`src/kernel_map.py`, duplicated in `src/quma_d.py`) and the
tick-driven lane scheduler (`src/re.py`, duplicated in `src/seal_re.py`).

The Python floats are modelled by an arbitrary linear ordered field `α`
(instantiated at `ℚ` for executable checks and at `ℝ` where the rotation
gate's cosine is needed).  Python exceptions are modelled by an explicit
error type and `Except`-valued functions.  The numeric rounding that the
source applies to the *reported* angle / rot_mod / capacities
(`round(x, n)`, display formatting only) is not modelled; all downstream
computation in the source uses the unrounded values.
-/

namespace Olivia

/-- The four categories ("quadrants" / "pyramids"):
`QUADRANTS = ["Cost", "Revenue", "Overhead", "Growth"]` in `src/re.py`. -/
inductive Quad : Type
  | Cost | Revenue | Overhead | Growth
deriving DecidableEq

/-- The fixed iteration order of the categories (`QUADRANTS` in `src/re.py`). -/
def QUADRANTS : List Quad := [.Cost, .Revenue, .Overhead, .Growth]

/-- Constant `LANES_PER_QUAD = 8` in `src/re.py`. -/
def LANES_PER_QUAD : Nat := 8

/-- Category names as used for the `Dict[str, Quadrant]` keys in `src/re.py`;
an unknown name has no corresponding key. -/
def parseQuad : String → Option Quad
  | "Cost" => some .Cost
  | "Revenue" => some .Revenue
  | "Overhead" => some .Overhead
  | "Growth" => some .Growth
  | _ => none

/-- Python exception classes that the modelled code can raise, together with
the two exception classes named by the specification (which no code in the
repository defines or raises): they are included so that statements of the
form "fails with a `ConfigurationError`" can be expressed and compared
against what the source actually raises. -/
inductive PyError : Type
  | keyError
  | indexError
  | unknownCategoryError
  | configurationError
deriving DecidableEq

/-- A queued work item: `{"id":..., "weight":...}` in `src/re.py`. -/
structure Item (α : Type) where
  id : String
  weight : α
deriving DecidableEq

/-- The `Lane` dataclass of `src/re.py`: id, FIFO queue (list head = queue front),
and the `active` flag. -/
structure Lane (α : Type) where
  id : String
  queue : List (Item α)
  active : Bool
deriving DecidableEq

/-- The `Quadrant` dataclass of `src/re.py`. -/
structure Quadrant (α : Type) where
  name : String
  lanes : List (Lane α)
  priority : α
  massShare : α
  rrIdx : Nat
deriving DecidableEq

section Allocator

variable {α : Type} [LinearOrderedField α]

/-- The `Pyramid` dataclass of `src/kernel_map.py`. -/
structure Pyramid (α : Type) where
  name : String
  mass : α
  bias : α
deriving DecidableEq

/-- The `Capacitor` dataclass of `src/kernel_map.py` (without the QUMA seal field
of the `src/quma_d.py` variant, which is audit data external to scheduling). -/
structure Capacitor (α : Type) where
  residual : α
  angle_deg : α
  tri_delta : List α
deriving DecidableEq

/-- Result dictionary of `KernelAllocator.allocate`:
`{"pyramids": ..., "capacitor": ..., "weights": ...}`. -/
structure AllocResult (α : Type) where
  pyramids : List (Pyramid α)
  capacitor : Capacitor α
  weights : List α
deriving DecidableEq

/-- Constant `SQRT_RATIO = 4.39` (`src/kernel_map.py`, `src/re.py`). -/
def sqrtRatio : α := 4.39

/-- Constant `NUM_PYRAMIDS = 4` (`src/kernel_map.py`). -/
def NUM_PYRAMIDS : Nat := 4

/-- Method `KernelAllocator._weights` (`src/kernel_map.py` lines 28-36):
`w = [r, 1/r, r/2.0, 1/(2.0*r)]; s = sum(w); return [wi/s for wi in w]`. -/
def weightsFn (r : α) : List α :=
  let w : List α := [r, 1/r, r/2, 1/(2*r)]
  let s : α := w.sum
  w.map (fun wi => wi / s)

/-- Python truthiness of the `standard_bias` argument:
`None` and the empty list are falsy. -/
def biasTruthy {α : Type} : Option (List α) → Bool
  | none => false
  | some b => !b.isEmpty

/-- The value `standard_bias[i] if standard_bias else 1.0` used for the
`bias` field of each pyramid; indexing out of range raises `IndexError`. -/
def biasAt {α : Type} [LinearOrderedField α] (standard_bias : Option (List α)) (i : Nat) :
    Except PyError α :=
  match standard_bias with
  | none => .ok 1
  | some b =>
    if b.isEmpty then .ok 1
    else match b.get? i with
      | some x => .ok x
      | none => .error .indexError

/-- The pyramid-building loop of `KernelAllocator.allocate`
(`for i in range(NUM_PYRAMIDS): ...`), iterated over the index list. -/
def buildPyramids (raw_mass : α) (w : List α) (standard_bias : Option (List α)) :
    List Nat → Except PyError (List (Pyramid α))
  | [] => .ok []
  | i :: is => do
    let b ← biasAt standard_bias i
    let rest ← buildPyramids raw_mass w standard_bias is
    .ok ({ name := "P" ++ toString (i+1), mass := raw_mass * w.getD i 0, bias := b } :: rest)

/-- Method `KernelAllocator.allocate` (`src/kernel_map.py` lines 38-63).  The
allocator's only mutable state is `self.angle`, which `allocate` reads but
never writes; it is passed as the `angle` argument. -/
def allocate (r : α) (raw_mass : α) (standard_bias : Option (List α)) (angle : α) :
    Except PyError (AllocResult α) := do
  let w0 := weightsFn r
  -- `if standard_bias and len(standard_bias) == 4:` — apply biases, renormalize
  let w :=
    if biasTruthy standard_bias ∧ (standard_bias.getD []).length = 4 then
      let wb := List.zipWith (fun wi bi => wi * bi) w0 (standard_bias.getD [])
      wb.map (fun wi => wi / wb.sum)
    else w0
  let pyramids ← buildPyramids raw_mass w standard_bias (List.range NUM_PYRAMIDS)
  let allocated := (pyramids.map (fun p => p.mass)).sum
  let residual := max 0 (raw_mass - allocated)
  let tri := List.replicate 3 (residual / 3)
  .ok { pyramids := pyramids
        capacitor := { residual := residual, angle_deg := angle, tri_delta := tri }
        weights := w }

/-- Constant `CAP_ROTATE_DEGREES = 45.0`. -/
def CAP_ROTATE_DEGREES : α := 45.0

/-- Constant `TICK_MULTIPLE = 0.0102`. -/
def TICK_MULTIPLE : α := 0.0102

/-- Python's `%` on reals (sign of the divisor): `x % y = x - y*floor(x/y)`. -/
def pymod [FloorRing α] (x y : α) : α := x - y * ⌊x / y⌋

/-- Method `KernelAllocator.tick_counter_rotation` (`src/kernel_map.py` lines 65-72):
`angle = (angle + 45.0 * (ticks * 0.0102)) % 360.0`, returning the new angle. -/
def tickCounterRotation [FloorRing α] (ticks : Nat) (angle : α) : α :=
  pymod (angle + CAP_ROTATE_DEGREES * ((ticks : α) * TICK_MULTIPLE)) 360

end Allocator

section Engine

variable {α : Type} [LinearOrderedField α]

/-- The engine state of `OctupQuadEngine` (`src/re.py`): the tick counter,
the allocator's rotation angle, and the four quadrants (a `Dict[str,
Quadrant]` in the source, keyed and iterated in `QUADRANTS` order). -/
structure EngineState (α : Type) where
  tick : Nat
  angle : α
  cost : Quadrant α
  revenue : Quadrant α
  overhead : Quadrant α
  growth : Quadrant α
deriving DecidableEq

/-- Lookup `self.quads[q]`. -/
def EngineState.quad (st : EngineState α) : Quad → Quadrant α
  | .Cost => st.cost
  | .Revenue => st.revenue
  | .Overhead => st.overhead
  | .Growth => st.growth

/-- Replace one quadrant of the state. -/
def EngineState.setQuad (st : EngineState α) : Quad → Quadrant α → EngineState α
  | .Cost, qd => { st with cost := qd }
  | .Revenue, qd => { st with revenue := qd }
  | .Overhead, qd => { st with overhead := qd }
  | .Growth, qd => { st with growth := qd }

/-- First character of a quadrant's name, used for lane ids
(`f"{q[:1]}{i}"` in `OctupQuadEngine.__init__`). -/
def quadInitial : Quad → String
  | .Cost => "C"
  | .Revenue => "R"
  | .Overhead => "O"
  | .Growth => "G"

/-- The source's display name of a quadrant. -/
def quadName : Quad → String
  | .Cost => "Cost"
  | .Revenue => "Revenue"
  | .Overhead => "Overhead"
  | .Growth => "Growth"

/-- One freshly built quadrant: 8 empty active lanes, priority as set in
`OctupQuadEngine.__init__` (Revenue 1.25, Growth 1.10, Cost 0.95,
Overhead 0.80), `mass_share = 0.25`, `rr_idx = 0`. -/
def initQuadrant (q : Quad) : Quadrant α :=
  { name := quadName q
    lanes := (List.range LANES_PER_QUAD).map
      (fun i => { id := quadInitial q ++ toString i, queue := [], active := true })
    priority :=
      match q with
      | .Revenue => 1.25
      | .Growth => 1.10
      | .Cost => 0.95
      | .Overhead => 0.80
    massShare := 0.25
    rrIdx := 0 }

/-- Constructor `OctupQuadEngine.__init__`: tick 0, allocator angle 0, fresh quadrants. -/
def initState : EngineState α :=
  { tick := 0
    angle := 0
    cost := initQuadrant .Cost
    revenue := initQuadrant .Revenue
    overhead := initQuadrant .Overhead
    growth := initQuadrant .Growth }

/-- Replace the element at index `i` (no-op when out of range). -/
def modifyIdx {β : Type} (f : β → β) : Nat → List β → List β
  | _, [] => []
  | 0, x :: xs => f x :: xs
  | n+1, x :: xs => x :: modifyIdx f n xs

/-- Index of the first lane with the shortest queue:
`min(q.lanes, key=lambda L: len(L.queue))` (Python `min` returns the first
minimum).  The engine's lane lists are never empty. -/
def shortestIdx (lanes : List (Lane α)) : Nat :=
  let m := ((lanes.map (fun L => L.queue.length)).min?).getD 0
  (lanes.findIdx? (fun L => L.queue.length = m)).getD 0

/-- The mutation performed by `OctupQuadEngine.enqueue` once the category
lookup has succeeded: choose the target lane (shortest queue, or
`lane_hint % LANES_PER_QUAD`) and append the item to its queue. -/
def enqueueCore (q : Quad) (item : Item α) (lane_hint : Option Int)
    (st : EngineState α) : EngineState α :=
  let qd := st.quad q
  let i : Nat :=
    match lane_hint with
    | none => shortestIdx qd.lanes
    | some h => (h % (LANES_PER_QUAD : Int)).toNat
  st.setQuad q
    { qd with lanes := modifyIdx (fun L => { L with queue := L.queue ++ [item] }) i qd.lanes }

/-- Method `OctupQuadEngine.enqueue` (`src/re.py` lines 59-66).  The first statement
`q = self.quads[quadrant]` raises `KeyError` for an unknown category name,
before anything is mutated; on success the target lane's queue gets the item
appended. -/
def enqueue (quadrant : String) (item : Item α) (lane_hint : Option Int)
    (st : EngineState α) : Except PyError (EngineState α) :=
  match parseQuad quadrant with
  | none => .error .keyError
  | some q => .ok (enqueueCore q item lane_hint st)

/-- Method `OctupQuadEngine.snapshot_load` restricted to one category: the total
number of queued items over the category's lanes. -/
def backlogOf (st : EngineState α) (q : Quad) : Nat :=
  ((st.quad q).lanes.map (fun L => L.queue.length)).sum

/-- The lane visit order of one tick:
`lane_indices = lane_indices[start:] + lane_indices[:start]` over
`list(range(LANES_PER_QUAD))`. -/
def rotOrder (start : Nat) : List Nat :=
  ((List.range LANES_PER_QUAD).drop start) ++ ((List.range LANES_PER_QUAD).take start)

/-- The round-robin pull loop of `OctupQuadEngine.step` (lines 113-123) for
one category: walk the lane indices, stop early once `pulled >= cap`, skip
inactive or empty lanes, and pop a lane's head item whenever
`pulled + weight <= cap`.  Returns the scheduled `(lane_id, item)` pairs in
pull order together with the updated lanes. -/
def pullPass (cap : α) : List Nat → α → List (Lane α) →
    List (String × Item α) × List (Lane α)
  | [], _, lanes => ([], lanes)
  | idx :: rest, pulled, lanes =>
    if cap ≤ pulled then ([], lanes)
    else
      match lanes.get? idx with
      | none => pullPass cap rest pulled lanes
      | some L =>
        if L.active = false then pullPass cap rest pulled lanes
        else
          match L.queue with
          | [] => pullPass cap rest pulled lanes
          | item :: tl =>
            if pulled + item.weight ≤ cap then
              let lanes' := modifyIdx (fun l => { l with queue := tl }) idx lanes
              let out := pullPass cap rest (pulled + item.weight) lanes'
              ((L.id, item) :: out.1, out.2)
            else pullPass cap rest pulled lanes

/-- One category's share of the scheduling pass: run the pull loop starting
at the round-robin cursor, then advance the cursor by one
(`qd.rr_idx = (start + 1) % LANES_PER_QUAD`). -/
def stepQuad (cap : α) (qd : Quadrant α) : List (String × Item α) × Quadrant α :=
  let start := qd.rrIdx % LANES_PER_QUAD
  let out := pullPass cap (rotOrder start) 0 qd.lanes
  (out.1, { qd with lanes := out.2, rrIdx := (start + 1) % LANES_PER_QUAD })

/-- Per-category capacity (`src/re.py` lines 98-100):
`max(0.5, LANES_PER_QUAD * mass_share * priority * rot_mod)`. -/
def quadCap (rot_mod : α) (qd : Quadrant α) : α :=
  max 0.5 ((LANES_PER_QUAD : α) * qd.massShare * qd.priority * rot_mod)

/-- The dictionary returned by `OctupQuadEngine.step` (the source rounds
`angle_deg`, `rot_mod` and the capacities for display; the model keeps the
exact values). -/
structure TickResult (α : Type) where
  tick : Nat
  angle_deg : α
  rot_mod : α
  quad_caps : List (Quad × α)
  scheduled : List (Quad × String × Item α)
  backlog : List (Quad × Nat)
deriving DecidableEq

/-- Capacity of one category in a tick result. -/
def TickResult.capOf (res : TickResult α) (q : Quad) : α :=
  ((res.quad_caps.find? (fun p => p.1 = q)).map (fun p => p.2)).getD 0

/-- Backlog of one category in a tick result. -/
def TickResult.backlogAt (res : TickResult α) (q : Quad) : Nat :=
  ((res.backlog.find? (fun p => p.1 = q)).map (fun p => p.2)).getD 0

/-- Step 1 of `step`: `for name, w in zip(map_order, weights):
self.quads[name].mass_share = w`. -/
def massShareUpdate (st : EngineState α) (weights : List α) : EngineState α :=
  (QUADRANTS.zip weights).foldl
    (fun s qw => s.setQuad qw.1 { s.quad qw.1 with massShare := qw.2 }) st

/-- Method `OctupQuadEngine.step` (`src/re.py` lines 71-134), with the rotation
modifier abstracted as a function `rmOf` of the post-advance angle: the
source computes `rot_mod = max(0.05, gate * micro)` from the new angle via
`math.cos`; `stepR` below instantiates `rmOf` with exactly that real-valued
computation, while the scheduling theorems hold for every `rmOf`.  The raw
mass is passed to the allocator exactly as in the source. -/
def stepCore [FloorRing α] (rmOf : α → α) (raw_mass : α) (st : EngineState α) :
    TickResult α × EngineState α :=
  let tick' := st.tick + 1
  -- 1) refresh mass shares from allocator
  let weights :=
    match allocate (sqrtRatio : α) raw_mass none st.angle with
    | .ok out => out.weights
    | .error _ => []  -- unreachable: `allocate` with no bias vector never fails
  let st1 := massShareUpdate st weights
  -- 2) advance the capacitor angle, compute the rotation modifier
  let angle' := tickCounterRotation 1 st.angle
  let rot_mod := rmOf angle'
  -- 3) per-quadrant capacity this tick
  let caps : Quad → α := fun q => quadCap rot_mod (st1.quad q)
  -- 4) schedule: pull up to capacity items, RR within each quadrant
  let passed := QUADRANTS.foldl
    (fun (acc : List (Quad × String × Item α) × EngineState α) q =>
      let out := stepQuad (caps q) (acc.2.quad q)
      (acc.1 ++ out.1.map (fun p => (q, p.1, p.2)), acc.2.setQuad q out.2))
    ([], st1)
  let st2 : EngineState α := { passed.2 with tick := tick', angle := angle' }
  ({ tick := tick'
     angle_deg := angle'
     rot_mod := rot_mod
     quad_caps := QUADRANTS.map (fun q => (q, caps q))
     scheduled := passed.1
     backlog := QUADRANTS.map (fun q => (q, backlogOf st2 q)) },
   st2)

/-- Iterated ticks: `stepSeq rmOf raws n st` is the engine state after `n`
`step` calls, where tick `t` (0-based) uses rotation-modifier function
`rmOf t` and raw mass `raws t`. -/
def stepSeq [FloorRing α] (rmOf : Nat → α → α) (raws : Nat → α) : Nat → EngineState α → EngineState α
  | 0, st => st
  | n+1, st => (stepCore (rmOf n) (raws n) (stepSeq rmOf raws n st)).2

/-- The starting (cursor) lane a category would use on the next tick:
`start = qd.rr_idx % LANES_PER_QUAD`. -/
def startIdx (st : EngineState α) (q : Quad) : Nat :=
  (st.quad q).rrIdx % LANES_PER_QUAD

end Engine

section RealStep

/-- Conversion `math.radians`: degrees to radians. -/
noncomputable def radiansOf (x : ℝ) : ℝ := x * (Real.pi / 180)

/-- The normalized gating factor (`src/re.py` line 90):
`gate = 0.5 * (1 + math.cos(math.radians(angle)))`. -/
noncomputable def gate (angle : ℝ) : ℝ := 0.5 * (1 + Real.cos (radiansOf angle))

/-- Constant `micro = 1.0 - (TICK_MULTIPLE * 0.5)` (`src/re.py` line 92). -/
noncomputable def micro : ℝ := 1.0 - (TICK_MULTIPLE * 0.5)

/-- Modifier `rot_mod = max(0.05, gate * micro)` (`src/re.py` line 93). -/
noncomputable def rotMod (angle : ℝ) : ℝ := max 0.05 (gate angle * micro)

/-- The full `OctupQuadEngine.step` over the reals, with the rotation
modifier computed from the advanced angle exactly as in the source. -/
noncomputable def stepR (raw_mass : ℝ) (st : EngineState ℝ) :
    TickResult ℝ × EngineState ℝ :=
  stepCore rotMod raw_mass st

end RealStep

section Demo

variable {α : Type} [LinearOrderedField α]

/-- One enqueue loop of the `src/re.py` demo
(`for i in range(n): eng.enqueue(q, {"id": f"{pre}{i}", "weight": 1})`);
the category names used there are all valid, so `enqueue` reduces to
`enqueueCore`. -/
def enqueueMany (q : Quad) (pre : String) (n : Nat) (st : EngineState α) : EngineState α :=
  (List.range n).foldl (fun s i => enqueueCore q ⟨pre ++ toString i, 1⟩ none s) st

/-- The engine state built by the `src/re.py` demo (lines 150-160) before the
first `step` call: a fresh engine with 40/30/18/26 unit-weight items enqueued
into Cost/Revenue/Overhead/Growth. -/
noncomputable def demoInit : EngineState ℝ :=
  enqueueMany .Growth "g" 26
    (enqueueMany .Overhead "o" 18
      (enqueueMany .Revenue "r" 30
        (enqueueMany .Cost "c" 40 initState)))

end Demo

/-! ### Basic lemmas about the embedded operations -/

section BasicLemmas

variable {α : Type} [LinearOrderedField α]

theorem modifyIdx_get?_ne {β : Type} (f : β → β) {i j : Nat} (l : List β) (h : i ≠ j) :
    (modifyIdx f j l).get? i = l.get? i := by
  induction l generalizing i j with
  | nil => cases j <;> rfl
  | cons x xs ih =>
    cases j with
    | zero =>
      cases i with
      | zero => exact absurd rfl h
      | succ i => rfl
    | succ j =>
      cases i with
      | zero => rfl
      | succ i => simpa [modifyIdx] using ih (fun hij => h (by simp [hij]))

theorem modifyIdx_get?_eq {β : Type} (f : β → β) (j : Nat) (l : List β) :
    (modifyIdx f j l).get? j = (l.get? j).map f := by
  induction l generalizing j with
  | nil => cases j <;> rfl
  | cons x xs ih =>
    cases j with
    | zero => rfl
    | succ j => simpa [modifyIdx] using ih j

theorem mem_modifyIdx {β : Type} (f : β → β) (j : Nat) (l : List β) :
    ∀ y ∈ modifyIdx f j l, y ∈ l ∨ ∃ x, l.get? j = some x ∧ y = f x := by
  induction l generalizing j with
  | nil => intro y hy; cases j <;> simp [modifyIdx] at hy
  | cons x xs ih =>
    intro y hy
    cases j with
    | zero =>
      rcases (List.mem_cons).1 hy with h | h
      · exact Or.inr ⟨x, rfl, h⟩
      · exact Or.inl (List.mem_cons_of_mem _ h)
    | succ j =>
      rcases (List.mem_cons).1 hy with h | h
      · exact Or.inl (h ▸ List.mem_cons_self ..)
      · rcases ih j y h with h' | ⟨z, hz, hzy⟩
        · exact Or.inl (List.mem_cons_of_mem _ h')
        · exact Or.inr ⟨z, hz, hzy⟩

theorem modifyIdx_map_sum {β : Type} (f : β → β) (g : β → Nat) (j : Nat) (l : List β)
    {x : β} (hx : l.get? j = some x) :
    ((modifyIdx f j l).map g).sum + g x = (l.map g).sum + g (f x) := by
  induction l generalizing j with
  | nil => simp at hx
  | cons y ys ih =>
    cases j with
    | zero =>
      simp only [List.get?] at hx
      cases hx
      simp [modifyIdx, Nat.add_comm, Nat.add_left_comm]
    | succ j =>
      simp only [List.get?] at hx
      have := ih j hx
      simp only [modifyIdx, List.map_cons, List.sum_cons]
      omega

theorem rotOrder_perm (s : Nat) : (rotOrder s).Perm (List.range LANES_PER_QUAD) := by
  have h : (List.range LANES_PER_QUAD).take s ++ (List.range LANES_PER_QUAD).drop s =
      List.range LANES_PER_QUAD := List.take_append_drop s _
  have hp : (rotOrder s).Perm
      ((List.range LANES_PER_QUAD).take s ++ (List.range LANES_PER_QUAD).drop s) :=
    List.perm_append_comm
  rw [h] at hp
  exact hp

theorem rotOrder_nodup (s : Nat) : (rotOrder s).Nodup :=
  (rotOrder_perm s).nodup_iff.2 (List.nodup_range _)

theorem mem_rotOrder {i s : Nat} : i ∈ rotOrder s ↔ i < LANES_PER_QUAD := by
  rw [(rotOrder_perm s).mem_iff, List.mem_range]

theorem rotOrder_length (s : Nat) : (rotOrder s).length = LANES_PER_QUAD := by
  rw [(rotOrder_perm s).length_eq, List.length_range]

end BasicLemmas

theorem quad_setQuad_same {α : Type} (st : EngineState α) (q : Quad) (qd : Quadrant α) :
    (st.setQuad q qd).quad q = qd := by
  cases q <;> rfl

theorem quad_setQuad_ne {α : Type} (st : EngineState α) {q q' : Quad} (qd : Quadrant α)
    (h : q ≠ q') : (st.setQuad q qd).quad q' = st.quad q' := by
  cases q <;> cases q' <;> first | exact absurd rfl h | rfl

/-! ### Lemmas about the round-robin pull loop -/

section PullPassLemmas

variable {α : Type} [LinearOrderedField α]

/-- Lanes whose index the pull loop never visits are untouched. -/
theorem pullPass_get?_of_not_mem (cap : α) (order : List Nat) (p : α) (lanes : List (Lane α))
    {i : Nat} (h : i ∉ order) :
    (pullPass cap order p lanes).2.get? i = lanes.get? i := by
  induction order generalizing p lanes with
  | nil => rfl
  | cons idx rest ih =>
    have hne : i ≠ idx := fun he => h (he ▸ List.mem_cons_self ..)
    have hrest : i ∉ rest := fun hr => h (List.mem_cons_of_mem _ hr)
    simp only [pullPass]
    by_cases hbr : cap ≤ p
    · simp [hbr]
    · simp only [if_neg hbr]
      cases hL : lanes.get? idx with
      | none => exact ih _ _ hrest
      | some L =>
        by_cases hact : L.active = false
        · simp only [if_pos hact]
          exact ih _ _ hrest
        · simp only [if_neg hact]
          cases hq : L.queue with
          | nil => exact ih _ _ hrest
          | cons item tl =>
            by_cases hfit : p + item.weight ≤ cap
            · simp only [if_pos hfit]
              rw [ih _ _ hrest]
              exact modifyIdx_get?_ne _ _ hne
            · simp only [if_neg hfit]
              exact ih _ _ hrest

/-- Each visited lane either keeps its queue or loses exactly its head item,
which is then part of the returned schedule. -/
theorem pullPass_lane_spec (cap : α) (order : List Nat) (p : α) (lanes : List (Lane α))
    (hnd : order.Nodup) (i : Nat) :
    (pullPass cap order p lanes).2.get? i = lanes.get? i ∨
    ∃ L hd tl, lanes.get? i = some L ∧ L.queue = hd :: tl ∧
      (pullPass cap order p lanes).2.get? i = some { L with queue := tl } ∧
      (L.id, hd) ∈ (pullPass cap order p lanes).1 := by
  induction order generalizing p lanes with
  | nil => exact Or.inl rfl
  | cons idx rest ih =>
    have hnd' : rest.Nodup := hnd.of_cons
    have hni : idx ∉ rest := (List.nodup_cons.1 hnd).1
    simp only [pullPass]
    by_cases hbr : cap ≤ p
    · simp [hbr]
    · simp only [if_neg hbr]
      cases hL : lanes.get? idx with
      | none => exact ih _ _ hnd'
      | some L =>
        by_cases hact : L.active = false
        · simp only [if_pos hact]
          exact ih _ _ hnd'
        · simp only [if_neg hact]
          cases hq : L.queue with
          | nil => exact ih _ _ hnd'
          | cons item tl =>
            by_cases hfit : p + item.weight ≤ cap
            · simp only [if_pos hfit]
              by_cases hi : i = idx
              · subst hi
                refine Or.inr ⟨L, item, tl, hL, hq, ?_, ?_⟩
                · rw [pullPass_get?_of_not_mem _ _ _ _ hni,
                    modifyIdx_get?_eq, hL]
                  rfl
                · exact List.mem_cons_self ..
              · rcases ih (p + item.weight)
                  (modifyIdx (fun l => { l with queue := tl }) idx lanes) hnd' with
                  h' | ⟨L', hd', tl', hget, hq', hnew, hmem⟩
                · rw [modifyIdx_get?_ne _ _ hi] at h'
                  exact Or.inl h'
                · rw [modifyIdx_get?_ne _ _ hi] at hget
                  exact Or.inr ⟨L', hd', tl', hget, hq', hnew,
                    List.mem_cons_of_mem _ hmem⟩
            · simp only [if_neg hfit]
              exact ih _ _ hnd'

/-- The number of scheduled items is bounded by the number of visited lanes. -/
theorem pullPass_length_le (cap : α) (order : List Nat) (p : α) (lanes : List (Lane α)) :
    (pullPass cap order p lanes).1.length ≤ order.length := by
  induction order generalizing p lanes with
  | nil => exact Nat.le_refl 0
  | cons idx rest ih =>
    simp only [pullPass]
    by_cases hbr : cap ≤ p
    · simp [hbr]
    · simp only [if_neg hbr]
      cases hL : lanes.get? idx with
      | none => exact (ih _ _).trans (Nat.le_succ _)
      | some L =>
        by_cases hact : L.active = false
        · simp only [if_pos hact]
          exact (ih _ _).trans (Nat.le_succ _)
        · simp only [if_neg hact]
          cases hq : L.queue with
          | nil => exact (ih _ _).trans (Nat.le_succ _)
          | cons item tl =>
            by_cases hfit : p + item.weight ≤ cap
            · simp only [if_pos hfit, List.length_cons]
              exact Nat.succ_le_succ (ih _ _)
            · simp only [if_neg hfit]
              exact (ih _ _).trans (Nat.le_succ _)

/-- Conservation of items: scheduled count plus remaining queue lengths
equals the original queue lengths. -/
theorem pullPass_count (cap : α) (order : List Nat) (p : α) (lanes : List (Lane α)) :
    (pullPass cap order p lanes).1.length +
      ((pullPass cap order p lanes).2.map (fun L => L.queue.length)).sum =
    (lanes.map (fun L => L.queue.length)).sum := by
  induction order generalizing p lanes with
  | nil => simp [pullPass]
  | cons idx rest ih =>
    simp only [pullPass]
    by_cases hbr : cap ≤ p
    · simp [hbr]
    · simp only [if_neg hbr]
      cases hL : lanes.get? idx with
      | none => exact ih _ _
      | some L =>
        by_cases hact : L.active = false
        · simp only [if_pos hact]
          exact ih _ _
        · simp only [if_neg hact]
          cases hq : L.queue with
          | nil => exact ih _ _
          | cons item tl =>
            by_cases hfit : p + item.weight ≤ cap
            · simp only [if_pos hfit, List.length_cons]
              have hsum := modifyIdx_map_sum (fun l => { l with queue := tl })
                (fun L => L.queue.length) idx lanes hL
              have hrec := ih (p + item.weight)
                (modifyIdx (fun l => { l with queue := tl }) idx lanes)
              simp only [hq] at hsum
              simp only [List.length_cons] at hsum
              omega
            · simp only [if_neg hfit]
              exact ih _ _

/-- The total scheduled weight never exceeds the capacity, provided the
starting `pulled` value does not and all queued weights are nonnegative. -/
theorem pullPass_weight_le (cap : α) (order : List Nat) (p : α) (lanes : List (Lane α))
    (hw : ∀ L ∈ lanes, ∀ it ∈ L.queue, 0 ≤ it.weight) (hp : p ≤ cap) :
    p + ((pullPass cap order p lanes).1.map (fun e => e.2.weight)).sum ≤ cap := by
  induction order generalizing p lanes with
  | nil => simpa [pullPass]
  | cons idx rest ih =>
    simp only [pullPass]
    by_cases hbr : cap ≤ p
    · simpa [hbr]
    · simp only [if_neg hbr]
      cases hL : lanes.get? idx with
      | none => exact ih _ _ hw hp
      | some L =>
        by_cases hact : L.active = false
        · simp only [if_pos hact]
          exact ih _ _ hw hp
        · simp only [if_neg hact]
          cases hq : L.queue with
          | nil => exact ih _ _ hw hp
          | cons item tl =>
            by_cases hfit : p + item.weight ≤ cap
            · simp only [if_pos hfit, List.map_cons, List.sum_cons]
              have hL' : L ∈ lanes := List.get?_mem hL
              have hw' : ∀ L' ∈ modifyIdx (fun l => { l with queue := tl }) idx lanes,
                  ∀ it' ∈ L'.queue, 0 ≤ it'.weight := by
                intro L' hmem it' hit'
                rcases mem_modifyIdx _ _ _ L' hmem with h' | ⟨x, hx, hx'⟩
                · exact hw L' h' it' hit'
                · have hxL : x = L := by rw [hL] at hx; exact (Option.some.inj hx).symm
                  subst hxL
                  subst hx'
                  exact hw x (List.get?_mem hL) it'
                    (hq ▸ List.mem_cons_of_mem _ hit')
              have := ih (p + item.weight)
                (modifyIdx (fun l => { l with queue := tl }) idx lanes) hw' hfit
              calc p + (item.weight +
                    ((pullPass cap rest (p + item.weight)
                      (modifyIdx (fun l => { l with queue := tl }) idx lanes)).1.map
                        (fun e => e.2.weight)).sum)
                  = (p + item.weight) +
                    ((pullPass cap rest (p + item.weight)
                      (modifyIdx (fun l => { l with queue := tl }) idx lanes)).1.map
                        (fun e => e.2.weight)).sum := by ring
                _ ≤ cap := this
            · simp only [if_neg hfit]
              exact ih _ _ hw hp

theorem pullPass_unit_count (cap : α) (order : List Nat) (p : α) (lanes : List (Lane α))
    (k : Nat)
    (horder : ∀ i ∈ order, ∃ L, lanes.get? i = some L ∧ L.active = true ∧
        ∃ hd tl, L.queue = hd :: tl ∧ hd.weight = 1)
    (hnd : order.Nodup)
    (h1 : p + (k : α) ≤ cap) (h2 : cap < p + (k : α) + 1) (hk : k ≤ order.length) :
    (pullPass cap order p lanes).1.length = k := by
  induction order generalizing p lanes k with
  | nil =>
    have hk0 : k = 0 := Nat.le_zero.mp hk
    subst hk0
    rfl
  | cons idx rest ih =>
    have hnd' : rest.Nodup := hnd.of_cons
    have hni : idx ∉ rest := (List.nodup_cons.1 hnd).1
    simp only [pullPass]
    by_cases hbr : cap ≤ p
    · have hle : (k : α) ≤ 0 := by linarith
      have hk0 : k = 0 := by exact_mod_cast le_antisymm hle (Nat.cast_nonneg k)
      subst hk0
      simp [hbr]
    · obtain ⟨L0, hL0, hact0, hd0, tl0, hq0, hw0⟩ := horder idx (List.mem_cons_self ..)
      simp only [if_neg hbr]
      cases hL : lanes.get? idx with
      | none => rw [hL0] at hL; cases hL
      | some L =>
        have hLL : L = L0 := by rw [hL0] at hL; exact (Option.some.inj hL).symm
        subst hLL
        have hLfalse : ¬(L.active = false) := by simp [hact0]
        simp only [if_neg hLfalse]
        cases hq : L.queue with
        | nil => rw [hq0] at hq; cases hq
        | cons item tl =>
          have hit : item = hd0 ∧ tl = tl0 := by
            rw [hq0] at hq
            exact ⟨(List.cons.inj hq).1.symm, (List.cons.inj hq).2.symm⟩
          have hw1 : item.weight = 1 := hit.1 ▸ hw0
          by_cases hfit : p + item.weight ≤ cap
          · cases k with
            | zero =>
              rw [hw1] at hfit
              push_cast at h2
              linarith
            | succ k' =>
              simp only [if_pos hfit, List.length_cons]
              have horder' : ∀ i ∈ rest, ∃ L, (modifyIdx (fun l => { l with queue := tl })
                  idx lanes).get? i = some L ∧ L.active = true ∧
                  ∃ hd tl, L.queue = hd :: tl ∧ hd.weight = 1 := by
                intro i hi
                have hne : i ≠ idx := fun he => hni (he ▸ hi)
                rw [modifyIdx_get?_ne _ _ hne]
                exact horder i (List.mem_cons_of_mem _ hi)
              have h1' : (p + item.weight) + (k' : α) ≤ cap := by
                rw [hw1]
                push_cast at h1
                linarith
              have h2' : cap < (p + item.weight) + (k' : α) + 1 := by
                rw [hw1]
                push_cast at h2
                linarith
              have hk' : k' ≤ rest.length := by
                simpa using Nat.succ_le_succ_iff.mp (by simpa using hk)
              rw [ih _ _ k' horder' hnd' h1' h2' hk']
          · have hcap1 : cap < p + 1 := by
              rw [hw1] at hfit
              linarith [not_le.mp hfit]
            have hk0 : k = 0 := by
              have hlt : (k : α) < 1 := by linarith
              exact_mod_cast Nat.lt_one_iff.mp (by exact_mod_cast hlt)
            subst hk0
            simp only [if_neg hfit]
            exact ih _ _ 0
              (fun i hi => horder i (List.mem_cons_of_mem _ hi)) hnd'
              (by simpa using le_of_not_le hbr) (by simpa using hcap1)
              (Nat.zero_le _)

/-- Running `stepQuad` on a quadrant whose 8 lanes are all active with unit-weight
head items schedules exactly `k = ⌊cap⌋` items (for `k ≤ 8`). -/
theorem stepQuad_unit_count (cap : α) (qd : Quadrant α) (k : Nat)
    (hlanes : ∀ i, i < LANES_PER_QUAD → ∃ L, qd.lanes.get? i = some L ∧ L.active = true ∧
        ∃ hd tl, L.queue = hd :: tl ∧ hd.weight = 1)
    (h1 : (k : α) ≤ cap) (h2 : cap < (k : α) + 1) (hk : k ≤ LANES_PER_QUAD) :
    (stepQuad cap qd).1.length = k := by
  refine pullPass_unit_count cap _ 0 qd.lanes k
    (fun i hi => hlanes i (mem_rotOrder.1 hi)) (rotOrder_nodup _) ?_ ?_ ?_
  · simpa using h1
  · simpa using h2
  · rw [rotOrder_length]
    exact hk

end PullPassLemmas

/-! ### Unfolding lemmas for one engine tick -/

section MassShareLemmas

variable {α : Type} [LinearOrderedField α]

theorem allocate_none_weights (r raw ang : α) :
    ∃ out, allocate r raw none ang = .ok out ∧ out.weights = weightsFn r :=
  ⟨_, rfl, rfl⟩

theorem massShareUpdate_lanes (st : EngineState α) (r : α) (q : Quad) :
    ((massShareUpdate st (weightsFn r)).quad q).lanes = (st.quad q).lanes := by
  cases q <;> rfl

theorem massShareUpdate_rrIdx (st : EngineState α) (r : α) (q : Quad) :
    ((massShareUpdate st (weightsFn r)).quad q).rrIdx = (st.quad q).rrIdx := by
  cases q <;> rfl

theorem massShareUpdate_priority (st : EngineState α) (r : α) (q : Quad) :
    ((massShareUpdate st (weightsFn r)).quad q).priority = (st.quad q).priority := by
  cases q <;> rfl

theorem massShareUpdate_share_Cost (st : EngineState α) (r : α) :
    ((massShareUpdate st (weightsFn r)).quad .Cost).massShare
      = r / ([r, 1/r, r/2, 1/(2*r)] : List α).sum := rfl

theorem massShareUpdate_share_Revenue (st : EngineState α) (r : α) :
    ((massShareUpdate st (weightsFn r)).quad .Revenue).massShare
      = (1/r) / ([r, 1/r, r/2, 1/(2*r)] : List α).sum := rfl

theorem massShareUpdate_share_Overhead (st : EngineState α) (r : α) :
    ((massShareUpdate st (weightsFn r)).quad .Overhead).massShare
      = (r/2) / ([r, 1/r, r/2, 1/(2*r)] : List α).sum := rfl

theorem massShareUpdate_share_Growth (st : EngineState α) (r : α) :
    ((massShareUpdate st (weightsFn r)).quad .Growth).massShare
      = (1/(2*r)) / ([r, 1/r, r/2, 1/(2*r)] : List α).sum := rfl

/-- A lane list all of whose members are active and have a unit-weight head
item (stated through computable projections) satisfies the per-index
precondition of `pullPass_unit_count`. -/
theorem unit_lanes_of_facts (lanes : List (Lane α))
    (hlen : lanes.length = LANES_PER_QUAD)
    (hact : lanes.all (fun L => L.active) = true)
    (hheads : lanes.map (fun L => L.queue.head?.map (fun it => it.weight))
      = List.replicate LANES_PER_QUAD (some 1)) :
    ∀ i, i < LANES_PER_QUAD → ∃ L, lanes.get? i = some L ∧ L.active = true ∧
      ∃ hd tl, L.queue = hd :: tl ∧ hd.weight = 1 := by
  intro i hi
  have hi' : i < lanes.length := hlen ▸ hi
  obtain ⟨L, hL⟩ : ∃ L, lanes.get? i = some L := ⟨_, List.get?_eq_get hi'⟩
  refine ⟨L, hL, ?_, ?_⟩
  · exact List.all_eq_true.1 hact L (List.get?_mem hL)
  · have h1 : (lanes.map (fun L => L.queue.head?.map (fun it => it.weight))).get? i
        = some (L.queue.head?.map (fun it => it.weight)) := by
      rw [List.get?_map, hL]
      rfl
    rw [hheads] at h1
    have hi'' : i < (List.replicate LANES_PER_QUAD (some (1:α))).length := by
      simpa using hi
    rw [List.get?_eq_get hi'', List.get_replicate] at h1
    have h3 : L.queue.head?.map (fun it => it.weight) = some 1 :=
      (Option.some.inj h1).symm
    cases hq : L.queue with
    | nil => rw [hq] at h3; simp at h3
    | cons hd tl =>
      rw [hq] at h3
      simp only [List.head?_cons, Option.map_some'] at h3
      exact ⟨hd, tl, rfl, Option.some.inj h3⟩

end MassShareLemmas

section StepLemmas

variable {α : Type} [LinearOrderedField α] [FloorRing α]

theorem stepCore_quad (rmOf : α → α) (raw : α) (st : EngineState α) (q : Quad) :
    (stepCore rmOf raw st).2.quad q =
      (stepQuad
        (quadCap (rmOf (tickCounterRotation 1 st.angle))
          ((massShareUpdate st (weightsFn (sqrtRatio : α))).quad q))
        ((massShareUpdate st (weightsFn (sqrtRatio : α))).quad q)).2 := by
  cases q <;> rfl

theorem stepCore_capOf (rmOf : α → α) (raw : α) (st : EngineState α) (q : Quad) :
    (stepCore rmOf raw st).1.capOf q =
      quadCap (rmOf (tickCounterRotation 1 st.angle))
        ((massShareUpdate st (weightsFn (sqrtRatio : α))).quad q) := by
  cases q <;> rfl

theorem stepCore_scheduled (rmOf : α → α) (raw : α) (st : EngineState α) :
    (stepCore rmOf raw st).1.scheduled =
      ((stepQuad
          (quadCap (rmOf (tickCounterRotation 1 st.angle))
            ((massShareUpdate st (weightsFn (sqrtRatio : α))).quad .Cost))
          ((massShareUpdate st (weightsFn (sqrtRatio : α))).quad .Cost)).1.map
            (fun p => (Quad.Cost, p.1, p.2)))
      ++ ((stepQuad
          (quadCap (rmOf (tickCounterRotation 1 st.angle))
            ((massShareUpdate st (weightsFn (sqrtRatio : α))).quad .Revenue))
          ((massShareUpdate st (weightsFn (sqrtRatio : α))).quad .Revenue)).1.map
            (fun p => (Quad.Revenue, p.1, p.2)))
      ++ ((stepQuad
          (quadCap (rmOf (tickCounterRotation 1 st.angle))
            ((massShareUpdate st (weightsFn (sqrtRatio : α))).quad .Overhead))
          ((massShareUpdate st (weightsFn (sqrtRatio : α))).quad .Overhead)).1.map
            (fun p => (Quad.Overhead, p.1, p.2)))
      ++ ((stepQuad
          (quadCap (rmOf (tickCounterRotation 1 st.angle))
            ((massShareUpdate st (weightsFn (sqrtRatio : α))).quad .Growth))
          ((massShareUpdate st (weightsFn (sqrtRatio : α))).quad .Growth)).1.map
            (fun p => (Quad.Growth, p.1, p.2))) := by
  rfl

end StepLemmas

section FilterLemmas

variable {β : Type}

theorem filter_tag_self (q : Quad) (l : List (String × β)) :
    (l.map (fun p => (q, p.1, p.2))).filter (fun e => e.1 = q) =
      l.map (fun p => (q, p.1, p.2)) := by
  induction l with
  | nil => rfl
  | cons x xs ih => simp [ih]

theorem filter_tag_ne {q q' : Quad} (h : q' ≠ q) (l : List (String × β)) :
    (l.map (fun p => (q', p.1, p.2))).filter (fun e => e.1 = q) = [] := by
  induction l with
  | nil => rfl
  | cons x xs ih => simp [ih, h]

end FilterLemmas

/-! ### Numeric facts for the first demo tick -/

theorem pymod_eq_self {α : Type} [LinearOrderedField α] [FloorRing α]
    {x : α} (h0 : 0 ≤ x) (h1 : x < 360) : pymod x 360 = x := by
  unfold pymod
  have hfl : ⌊x / 360⌋ = 0 := by
    apply Int.floor_eq_zero_iff.mpr
    constructor
    · positivity
    · rw [div_lt_one (by norm_num : (0:α) < 360)]
      linarith
  rw [hfl]
  simp

/-- After the first tick from angle 0, the angle is `45 * 0.0102 = 0.459`
degrees. -/
theorem first_tick_angle : tickCounterRotation 1 (0:ℝ) = 0.459 := by
  unfold tickCounterRotation
  rw [show ((0:ℝ) + CAP_ROTATE_DEGREES * ((1:ℕ) * TICK_MULTIPLE)) = 0.459 by
    norm_num [CAP_ROTATE_DEGREES, TICK_MULTIPLE]]
  exact pymod_eq_self (by norm_num) (by norm_num)

/-- Bounds on the rotation modifier at angle `0.459°`: the gate is close to
its maximum, so `rot_mod ≈ 0.99488`. -/
theorem rotMod_first_tick_bounds :
    (0.9948:ℝ) ≤ rotMod 0.459 ∧ rotMod 0.459 ≤ (0.9949:ℝ) := by
  have hπu : Real.pi < 3.15 := Real.pi_lt_d2
  have hπl : 3.14 < Real.pi := Real.pi_gt_d2
  have hθdef : radiansOf 0.459 = 0.459 * (Real.pi / 180) := rfl
  have hθpos : (0:ℝ) ≤ radiansOf 0.459 := by
    rw [hθdef]
    positivity
  have hθle : radiansOf 0.459 ≤ 0.00804 := by
    rw [hθdef]
    nlinarith
  have hcos_le : Real.cos (radiansOf 0.459) ≤ 1 := Real.cos_le_one _
  have hcos_ge : (0.99996:ℝ) ≤ Real.cos (radiansOf 0.459) := by
    have hb := Real.one_sub_sq_div_two_le_cos (x := radiansOf 0.459)
    nlinarith [sq_nonneg (radiansOf 0.459)]
  have hgm : (0.9948:ℝ) ≤ gate 0.459 * micro ∧ gate 0.459 * micro ≤ (0.9949:ℝ) := by
    unfold gate micro TICK_MULTIPLE
    constructor <;> nlinarith
  constructor
  · rw [rotMod, max_eq_right (by nlinarith [hgm.1] : (0.05:ℝ) ≤ gate 0.459 * micro)]
    exact hgm.1
  · rw [rotMod, max_eq_right (by nlinarith [hgm.1] : (0.05:ℝ) ≤ gate 0.459 * micro)]
    exact hgm.2

/-- Bounds on the weight normalizer `S = r + 1/r + r/2 + 1/(2r)` at
`r = 4.39`. -/
theorem demo_S_bounds :
    (6.92:ℝ) ≤ ([sqrtRatio, 1/sqrtRatio, sqrtRatio/2, 1/(2*sqrtRatio)] : List ℝ).sum ∧
    ([sqrtRatio, 1/sqrtRatio, sqrtRatio/2, 1/(2*sqrtRatio)] : List ℝ).sum ≤ (6.93:ℝ) := by
  have hval : ([sqrtRatio, 1/sqrtRatio, sqrtRatio/2, 1/(2*sqrtRatio)] : List ℝ).sum
      = 4.39 + (1/4.39 + (4.39/2 + (1/(2*4.39) + 0))) := rfl
  rw [hval]
  norm_num

/-- Capacity of Cost on the first demo tick lies in `[4, 5)`. -/
theorem demo_cap_Cost_bounds :
    (4:ℝ) ≤ quadCap (rotMod 0.459)
        ((massShareUpdate demoInit (weightsFn (sqrtRatio : ℝ))).quad Quad.Cost) ∧
    quadCap (rotMod 0.459)
        ((massShareUpdate demoInit (weightsFn (sqrtRatio : ℝ))).quad Quad.Cost) < 5 := by
  obtain ⟨hrm_lo, hrm_hi⟩ := rotMod_first_tick_bounds
  obtain ⟨hS_lo, hS_hi⟩ := demo_S_bounds
  set S : ℝ := ([sqrtRatio, 1/sqrtRatio, sqrtRatio/2, 1/(2*sqrtRatio)] : List ℝ).sum
    with hSdef
  have hSpos : (0:ℝ) < S := lt_of_lt_of_le (by norm_num) hS_lo
  have hrm_pos : (0:ℝ) ≤ rotMod 0.459 := le_trans (by norm_num) hrm_lo
  have hx_lo : (0.633:ℝ) ≤ sqrtRatio / S := by
    rw [le_div_iff hSpos]
    show (0.633:ℝ) * S ≤ 4.39
    linarith
  have hx_hi : sqrtRatio / S ≤ (0.6346:ℝ) := by
    rw [div_le_iff hSpos]
    show (4.39:ℝ) ≤ 0.6346 * S
    linarith
  have hx_pos : (0:ℝ) ≤ sqrtRatio / S := le_trans (by norm_num) hx_lo
  have hprod_lo : (0.633:ℝ) * 0.9948 ≤ (sqrtRatio / S) * rotMod 0.459 :=
    mul_le_mul hx_lo hrm_lo (by norm_num) hx_pos
  have hprod_hi : (sqrtRatio / S) * rotMod 0.459 ≤ (0.6346:ℝ) * 0.9949 :=
    mul_le_mul hx_hi hrm_hi hrm_pos (by norm_num)
  have hpr : (demoInit.quad Quad.Cost).priority = (0.95:ℝ) := rfl
  have hcap_eq : quadCap (rotMod 0.459)
      ((massShareUpdate demoInit (weightsFn (sqrtRatio : ℝ))).quad Quad.Cost)
      = max 0.5 ((LANES_PER_QUAD : ℝ) * (sqrtRatio / S) * 0.95 * rotMod 0.459) := by
    unfold quadCap
    rw [massShareUpdate_share_Cost, massShareUpdate_priority, hpr, ← hSdef]
  have h8 : ((LANES_PER_QUAD : ℕ) : ℝ) = 8 := by norm_num [LANES_PER_QUAD]
  have hbase_lo : (4:ℝ) ≤ (LANES_PER_QUAD : ℝ) * (sqrtRatio / S) * 0.95 * rotMod 0.459 := by
    rw [h8]
    nlinarith [hprod_lo]
  have hbase_hi : (LANES_PER_QUAD : ℝ) * (sqrtRatio / S) * 0.95 * rotMod 0.459 < 5 := by
    rw [h8]
    nlinarith [hprod_hi]
  constructor
  · rw [hcap_eq, max_eq_right (le_trans (by norm_num) hbase_lo)]
    exact hbase_lo
  · rw [hcap_eq, max_eq_right (le_trans (by norm_num) hbase_lo)]
    exact hbase_hi

/-- Capacity of Overhead on the first demo tick lies in `[2, 3)`. -/
theorem demo_cap_Overhead_bounds :
    (2:ℝ) ≤ quadCap (rotMod 0.459)
        ((massShareUpdate demoInit (weightsFn (sqrtRatio : ℝ))).quad Quad.Overhead) ∧
    quadCap (rotMod 0.459)
        ((massShareUpdate demoInit (weightsFn (sqrtRatio : ℝ))).quad Quad.Overhead) < 3 := by
  obtain ⟨hrm_lo, hrm_hi⟩ := rotMod_first_tick_bounds
  obtain ⟨hS_lo, hS_hi⟩ := demo_S_bounds
  set S : ℝ := ([sqrtRatio, 1/sqrtRatio, sqrtRatio/2, 1/(2*sqrtRatio)] : List ℝ).sum
    with hSdef
  have hSpos : (0:ℝ) < S := lt_of_lt_of_le (by norm_num) hS_lo
  have hrm_pos : (0:ℝ) ≤ rotMod 0.459 := le_trans (by norm_num) hrm_lo
  have hx_lo : (0.3167:ℝ) ≤ (sqrtRatio/2) / S := by
    rw [le_div_iff hSpos]
    show (0.3167:ℝ) * S ≤ 4.39/2
    linarith
  have hx_hi : (sqrtRatio/2) / S ≤ (0.3173:ℝ) := by
    rw [div_le_iff hSpos]
    show (4.39:ℝ)/2 ≤ 0.3173 * S
    linarith
  have hx_pos : (0:ℝ) ≤ (sqrtRatio/2) / S := le_trans (by norm_num) hx_lo
  have hprod_lo : (0.3167:ℝ) * 0.9948 ≤ ((sqrtRatio/2) / S) * rotMod 0.459 :=
    mul_le_mul hx_lo hrm_lo (by norm_num) hx_pos
  have hprod_hi : ((sqrtRatio/2) / S) * rotMod 0.459 ≤ (0.3173:ℝ) * 0.9949 :=
    mul_le_mul hx_hi hrm_hi hrm_pos (by norm_num)
  have hpr : (demoInit.quad Quad.Overhead).priority = (0.80:ℝ) := rfl
  have hcap_eq : quadCap (rotMod 0.459)
      ((massShareUpdate demoInit (weightsFn (sqrtRatio : ℝ))).quad Quad.Overhead)
      = max 0.5 ((LANES_PER_QUAD : ℝ) * ((sqrtRatio/2) / S) * 0.80 * rotMod 0.459) := by
    unfold quadCap
    rw [massShareUpdate_share_Overhead, massShareUpdate_priority, hpr, ← hSdef]
  have h8 : ((LANES_PER_QUAD : ℕ) : ℝ) = 8 := by norm_num [LANES_PER_QUAD]
  have hbase_lo : (2:ℝ) ≤ (LANES_PER_QUAD : ℝ) * ((sqrtRatio/2) / S) * 0.80 * rotMod 0.459 := by
    rw [h8]
    nlinarith [hprod_lo]
  have hbase_hi : (LANES_PER_QUAD : ℝ) * ((sqrtRatio/2) / S) * 0.80 * rotMod 0.459 < 3 := by
    rw [h8]
    nlinarith [hprod_hi]
  constructor
  · rw [hcap_eq, max_eq_right (le_trans (by norm_num) hbase_lo)]
    exact hbase_lo
  · rw [hcap_eq, max_eq_right (le_trans (by norm_num) hbase_lo)]
    exact hbase_hi

/-- Capacity of Revenue on the first demo tick is pinned to the floor 0.5. -/
theorem demo_cap_Revenue_eq :
    quadCap (rotMod 0.459)
        ((massShareUpdate demoInit (weightsFn (sqrtRatio : ℝ))).quad Quad.Revenue)
      = (0.5:ℝ) := by
  obtain ⟨hrm_lo, hrm_hi⟩ := rotMod_first_tick_bounds
  obtain ⟨hS_lo, hS_hi⟩ := demo_S_bounds
  set S : ℝ := ([sqrtRatio, 1/sqrtRatio, sqrtRatio/2, 1/(2*sqrtRatio)] : List ℝ).sum
    with hSdef
  have hSpos : (0:ℝ) < S := lt_of_lt_of_le (by norm_num) hS_lo
  have hrm_pos : (0:ℝ) ≤ rotMod 0.459 := le_trans (by norm_num) hrm_lo
  have hx_hi : (1/sqrtRatio) / S ≤ (0.033:ℝ) := by
    rw [div_le_iff hSpos]
    show (1:ℝ)/4.39 ≤ 0.033 * S
    have h1 : (1:ℝ)/4.39 ≤ 0.2284 := by norm_num
    linarith
  have hx_pos : (0:ℝ) ≤ (1/sqrtRatio) / S := by
    have hnum : (0:ℝ) ≤ 1/sqrtRatio := by
      show (0:ℝ) ≤ 1/4.39
      norm_num
    positivity
  have hprod_hi : ((1/sqrtRatio) / S) * rotMod 0.459 ≤ (0.033:ℝ) * 0.9949 :=
    mul_le_mul hx_hi hrm_hi hrm_pos (by norm_num)
  have hprod_pos : (0:ℝ) ≤ ((1/sqrtRatio) / S) * rotMod 0.459 :=
    mul_nonneg hx_pos hrm_pos
  have hpr : (demoInit.quad Quad.Revenue).priority = (1.25:ℝ) := rfl
  have hcap_eq : quadCap (rotMod 0.459)
      ((massShareUpdate demoInit (weightsFn (sqrtRatio : ℝ))).quad Quad.Revenue)
      = max 0.5 ((LANES_PER_QUAD : ℝ) * ((1/sqrtRatio) / S) * 1.25 * rotMod 0.459) := by
    unfold quadCap
    rw [massShareUpdate_share_Revenue, massShareUpdate_priority, hpr, ← hSdef]
  have h8 : ((LANES_PER_QUAD : ℕ) : ℝ) = 8 := by norm_num [LANES_PER_QUAD]
  have hbase_hi : (LANES_PER_QUAD : ℝ) * ((1/sqrtRatio) / S) * 1.25 * rotMod 0.459
      ≤ (0.5:ℝ) := by
    rw [h8]
    nlinarith [hprod_hi]
  rw [hcap_eq, max_eq_left hbase_hi]

/-- Capacity of Growth on the first demo tick is pinned to the floor 0.5. -/
theorem demo_cap_Growth_eq :
    quadCap (rotMod 0.459)
        ((massShareUpdate demoInit (weightsFn (sqrtRatio : ℝ))).quad Quad.Growth)
      = (0.5:ℝ) := by
  obtain ⟨hrm_lo, hrm_hi⟩ := rotMod_first_tick_bounds
  obtain ⟨hS_lo, hS_hi⟩ := demo_S_bounds
  set S : ℝ := ([sqrtRatio, 1/sqrtRatio, sqrtRatio/2, 1/(2*sqrtRatio)] : List ℝ).sum
    with hSdef
  have hSpos : (0:ℝ) < S := lt_of_lt_of_le (by norm_num) hS_lo
  have hrm_pos : (0:ℝ) ≤ rotMod 0.459 := le_trans (by norm_num) hrm_lo
  have hx_hi : (1/(2*sqrtRatio)) / S ≤ (0.017:ℝ) := by
    rw [div_le_iff hSpos]
    show (1:ℝ)/(2*4.39) ≤ 0.017 * S
    have h1 : (1:ℝ)/(2*4.39) ≤ 0.1176 := by norm_num
    linarith
  have hx_pos : (0:ℝ) ≤ (1/(2*sqrtRatio)) / S := by
    have hnum : (0:ℝ) ≤ 1/(2*sqrtRatio) := by
      show (0:ℝ) ≤ 1/(2*4.39)
      norm_num
    positivity
  have hprod_hi : ((1/(2*sqrtRatio)) / S) * rotMod 0.459 ≤ (0.017:ℝ) * 0.9949 :=
    mul_le_mul hx_hi hrm_hi hrm_pos (by norm_num)
  have hpr : (demoInit.quad Quad.Growth).priority = (1.10:ℝ) := rfl
  have hcap_eq : quadCap (rotMod 0.459)
      ((massShareUpdate demoInit (weightsFn (sqrtRatio : ℝ))).quad Quad.Growth)
      = max 0.5 ((LANES_PER_QUAD : ℝ) * ((1/(2*sqrtRatio)) / S) * 1.10 * rotMod 0.459) := by
    unfold quadCap
    rw [massShareUpdate_share_Growth, massShareUpdate_priority, hpr, ← hSdef]
  have h8 : ((LANES_PER_QUAD : ℕ) : ℝ) = 8 := by norm_num [LANES_PER_QUAD]
  have hbase_hi : (LANES_PER_QUAD : ℝ) * ((1/(2*sqrtRatio)) / S) * 1.10 * rotMod 0.459
      ≤ (0.5:ℝ) := by
    rw [h8]
    nlinarith [hprod_hi]
  rw [hcap_eq, max_eq_left hbase_hi]

/-! ### The claims -/

/-- The schedule entries of one tick that carry a given category tag are
exactly that category's pull-pass output. -/
theorem scheduled_filter {α : Type} [LinearOrderedField α] [FloorRing α]
    (rmOf : α → α) (raw : α) (st : EngineState α) (q : Quad) :
    (stepCore rmOf raw st).1.scheduled.filter (fun e => e.1 = q) =
      ((stepQuad
        (quadCap (rmOf (tickCounterRotation 1 st.angle))
          ((massShareUpdate st (weightsFn (sqrtRatio : α))).quad q))
        ((massShareUpdate st (weightsFn (sqrtRatio : α))).quad q)).1.map
          (fun p => (q, p.1, p.2))) := by
  rw [stepCore_scheduled]
  cases q with
  | Cost =>
    simp only [List.filter_append, filter_tag_self,
      filter_tag_ne (by decide : Quad.Revenue ≠ Quad.Cost),
      filter_tag_ne (by decide : Quad.Overhead ≠ Quad.Cost),
      filter_tag_ne (by decide : Quad.Growth ≠ Quad.Cost),
      List.append_nil]
  | Revenue =>
    simp only [List.filter_append, filter_tag_self,
      filter_tag_ne (by decide : Quad.Cost ≠ Quad.Revenue),
      filter_tag_ne (by decide : Quad.Overhead ≠ Quad.Revenue),
      filter_tag_ne (by decide : Quad.Growth ≠ Quad.Revenue),
      List.append_nil, List.nil_append]
  | Overhead =>
    simp only [List.filter_append, filter_tag_self,
      filter_tag_ne (by decide : Quad.Cost ≠ Quad.Overhead),
      filter_tag_ne (by decide : Quad.Revenue ≠ Quad.Overhead),
      filter_tag_ne (by decide : Quad.Growth ≠ Quad.Overhead),
      List.append_nil, List.nil_append]
  | Growth =>
    simp only [List.filter_append, filter_tag_self,
      filter_tag_ne (by decide : Quad.Cost ≠ Quad.Growth),
      filter_tag_ne (by decide : Quad.Revenue ≠ Quad.Growth),
      filter_tag_ne (by decide : Quad.Overhead ≠ Quad.Growth),
      List.nil_append]

/-- C5: For every category and every tick, the computed capacity is at least
the capacity floor constant 0.5, regardless of the category's `massShare`
and `priority` values (including zero): `quad_caps[q] = max(0.5, base)`. -/
theorem capacity_at_least_floor {α : Type} [LinearOrderedField α] [FloorRing α]
    (rmOf : α → α) (raw_mass : α) (st : EngineState α) (q : Quad) :
    (0.5 : α) ≤ (stepCore rmOf raw_mass st).1.capOf q := by
  rw [stepCore_capOf]
  exact le_max_left _ _

/-- C10: The tick result and the updated engine state produced by
`step(raw_mass)` do not depend on the `raw_mass` argument: the engine only
reads the allocator's normalized `weights`, which are a function of the
ratio constant alone. -/
theorem step_independent_of_raw_mass (st : EngineState ℝ) (m₁ m₂ : ℝ) :
    stepR m₁ st = stepR m₂ st := by
  obtain ⟨o₁, h₁, w₁⟩ := allocate_none_weights (sqrtRatio : ℝ) m₁ st.angle
  obtain ⟨o₂, h₂, w₂⟩ := allocate_none_weights (sqrtRatio : ℝ) m₂ st.angle
  simp only [stepR, stepCore, h₁, h₂, w₁, w₂]

/-- C6: For every positive ratio `r`, the allocator's weight vector
(raw weights `[r, 1/r, r/2, 1/(2r)]` normalized by their sum) consists of
positive values and sums to 1 within tolerance `1e-9` (the sum is exactly 1
in exact arithmetic). -/
theorem weights_positive_and_normalized {α : Type} [LinearOrderedField α]
    (r : α) (hr : 0 < r) :
    (∀ w ∈ weightsFn r, 0 < w) ∧ |(weightsFn r).sum - 1| ≤ 1e-9 := by
  have hr' : r ≠ 0 := ne_of_gt hr
  have hs : (0 : α) < r + (1/r + (r/2 + (1/(2*r) + 0))) := by positivity
  constructor
  · intro w hw
    simp only [weightsFn, List.map_cons, List.map_nil, List.sum_cons, List.sum_nil,
      List.mem_cons, List.not_mem_nil, or_false] at hw
    rcases hw with h | h | h | h <;> rw [h] <;> exact div_pos (by positivity) hs
  · have hsum : (weightsFn r).sum = 1 := by
      simp only [weightsFn, List.map_cons, List.map_nil, List.sum_cons, List.sum_nil]
      field_simp
      ring
    rw [hsum]
    simp only [sub_self, abs_zero]
    norm_num

/-- Witness for C6 at the concrete ratio `r = 2` over `ℚ`. -/
theorem weights_positive_and_normalized_witness :
    (∀ w ∈ weightsFn (2 : ℚ), 0 < w) ∧ |(weightsFn (2 : ℚ)).sum - 1| ≤ 1e-9 :=
  weights_positive_and_normalized 2 zero_lt_two

/-- C7 counterexample: submitting to the unknown category `"Budget"` fails
with the builtin `KeyError` from the `self.quads[quadrant]` dictionary
lookup, not with the `UnknownCategoryError` named by the specification
(no such exception class exists anywhere in the repository). -/
theorem enqueue_unknown_not_unknownCategoryError :
    enqueue "Budget" ⟨"x", (1 : ℚ)⟩ none initState = .error .keyError ∧
    (Except.error PyError.keyError : Except PyError (EngineState ℚ)) ≠
      .error .unknownCategoryError :=
  ⟨rfl, fun h => PyError.noConfusion (Except.error.inj h)⟩

/-- C7 (amended): submitting to a category name that is not among the
configured categories fails synchronously with a `KeyError` (the dictionary
lookup is the first statement of `enqueue`), and no engine state is
modified: the call returns the error without producing a successor state. -/
theorem enqueue_unknown_is_keyError {α : Type} [LinearOrderedField α]
    (name : String) (item : Item α) (hint : Option Int) (st : EngineState α)
    (h : parseQuad name = none) :
    enqueue name item hint st = .error .keyError := by
  simp [enqueue, h]

/-- Witness for the amended C7 at the concrete category name `"Budget"`. -/
theorem enqueue_unknown_is_keyError_witness :
    enqueue "Budget" ⟨"y", (2 : ℚ)⟩ (some 3) initState = .error .keyError :=
  enqueue_unknown_is_keyError "Budget" ⟨"y", (2 : ℚ)⟩ (some 3) initState rfl

/-- C4 counterexample: calling `allocate` with the length-5 bias vector
`[1,1,1,1,1]` does not fail at all (so in particular it does not raise a
`ConfigurationError`): the guard `if standard_bias and len(standard_bias)
== 4` silently skips the bias application. -/
theorem allocate_wrong_bias_no_error :
    ([ (1:ℚ), 1, 1, 1, 1 ] : List ℚ).length ≠ 4 ∧
    (allocate (4.39 : ℚ) 1000 (some [1, 1, 1, 1, 1]) 0).isOk = true :=
  ⟨by decide, rfl⟩

/-- C4 (amended): a bias vector whose length differs from the category
count 4 never raises a `ConfigurationError`; the bias application is
silently skipped, so when the vector is empty or longer than 4 the call
succeeds with the unbiased weights, and when its length is 1–3 it fails
with an `IndexError` while building the per-pyramid records (reading
`standard_bias[i]`).  `allocate` never mutates allocator state in either
case (its only state, the rotation angle, is read-only here). -/
theorem allocate_wrong_bias_behaviour {α : Type} [LinearOrderedField α]
    (r raw ang : α) (b : List α) (hb : b.length ≠ 4) :
    ((b = [] ∨ 4 < b.length) →
      ∃ out, allocate r raw (some b) ang = .ok out ∧ out.weights = weightsFn r) ∧
    (b ≠ [] → b.length < 4 → allocate r raw (some b) ang = .error .indexError) := by
  match b with
  | [] =>
    exact ⟨fun _ => ⟨_, rfl, rfl⟩, fun hne _ => absurd rfl hne⟩
  | [x] =>
    refine ⟨fun h => ?_, fun _ _ => rfl⟩
    rcases h with h | h
    · cases h
    · simp at h
  | [x, y] =>
    refine ⟨fun h => ?_, fun _ _ => rfl⟩
    rcases h with h | h
    · cases h
    · simp at h
  | [x, y, z] =>
    refine ⟨fun h => ?_, fun _ _ => rfl⟩
    rcases h with h | h
    · cases h
    · simp at h
  | x :: y :: z :: w :: rest =>
    have hcond : ¬(biasTruthy (some (x :: y :: z :: w :: rest)) = true ∧
        ((some (x :: y :: z :: w :: rest)).getD ([] : List α)).length = 4) := by
      intro hc
      exact hb (by simpa using hc.2)
    refine ⟨fun _ => ?_, fun _ hlt => ?_⟩
    · simp only [allocate, if_neg hcond]
      exact ⟨_, rfl, rfl⟩
    · simp only [List.length_cons] at hlt
      omega

/-- Witness for the amended C4 at the concrete length-3 bias `[1,1,1]`. -/
theorem allocate_wrong_bias_behaviour_witness :
    ((([(1:ℚ), 1, 1] : List ℚ) = [] ∨ 4 < ([(1:ℚ), 1, 1] : List ℚ).length) →
      ∃ out, allocate (4.39 : ℚ) 1000 (some [1, 1, 1]) 0 = .ok out ∧
        out.weights = weightsFn (4.39 : ℚ)) ∧
    (([(1:ℚ), 1, 1] : List ℚ) ≠ [] → ([(1:ℚ), 1, 1] : List ℚ).length < 4 →
      allocate (4.39 : ℚ) 1000 (some [1, 1, 1]) 0 = .error .indexError) :=
  allocate_wrong_bias_behaviour (4.39 : ℚ) 1000 0 [1, 1, 1] (by decide)

/-- C1: In any engine state, assuming every queued item of a category has a
positive weight, the total weight scheduled from that category in one
`step(raw_mass)` call never exceeds that category's computed capacity for
the tick.  The rotation-modifier computation is universally quantified, so
this covers the cosine-gated modifier of the source. -/
theorem scheduled_weight_le_capacity {α : Type} [LinearOrderedField α] [FloorRing α]
    (rmOf : α → α) (raw_mass : α) (st : EngineState α) (q : Quad)
    (hpos : ∀ L ∈ (st.quad q).lanes, ∀ it ∈ L.queue, 0 < it.weight) :
    ((((stepCore rmOf raw_mass st).1.scheduled.filter
        (fun e => e.1 = q)).map (fun e => e.2.2.weight)).sum)
      ≤ (stepCore rmOf raw_mass st).1.capOf q := by
  rw [stepCore_scheduled, stepCore_capOf]
  have hw : ∀ L ∈ ((massShareUpdate st (weightsFn (sqrtRatio : α))).quad q).lanes,
      ∀ it ∈ L.queue, 0 ≤ it.weight := by
    rw [massShareUpdate_lanes]
    exact fun L hL it hit => le_of_lt (hpos L hL it hit)
  have hcap : (0 : α) ≤ quadCap (rmOf (tickCounterRotation 1 st.angle))
      ((massShareUpdate st (weightsFn (sqrtRatio : α))).quad q) :=
    le_trans (by norm_num) (le_max_left (0.5 : α) _)
  have key : ∀ (cap : α) (qd : Quadrant α), (0 : α) ≤ cap →
      (∀ L ∈ qd.lanes, ∀ it ∈ L.queue, 0 ≤ it.weight) →
      (((stepQuad cap qd).1.map (fun e => e.2.weight)).sum) ≤ cap := by
    intro cap qd h0 hw'
    have := pullPass_weight_le cap (rotOrder (qd.rrIdx % LANES_PER_QUAD)) 0 qd.lanes hw' h0
    simpa [stepQuad] using this
  cases q with
  | Cost =>
    simp only [List.filter_append, filter_tag_self,
      filter_tag_ne (by decide : Quad.Revenue ≠ Quad.Cost),
      filter_tag_ne (by decide : Quad.Overhead ≠ Quad.Cost),
      filter_tag_ne (by decide : Quad.Growth ≠ Quad.Cost),
      List.append_nil, List.map_map]
    simpa [Function.comp] using key _ _ hcap hw
  | Revenue =>
    simp only [List.filter_append, filter_tag_self,
      filter_tag_ne (by decide : Quad.Cost ≠ Quad.Revenue),
      filter_tag_ne (by decide : Quad.Overhead ≠ Quad.Revenue),
      filter_tag_ne (by decide : Quad.Growth ≠ Quad.Revenue),
      List.append_nil, List.nil_append, List.map_map]
    simpa [Function.comp] using key _ _ hcap hw
  | Overhead =>
    simp only [List.filter_append, filter_tag_self,
      filter_tag_ne (by decide : Quad.Cost ≠ Quad.Overhead),
      filter_tag_ne (by decide : Quad.Revenue ≠ Quad.Overhead),
      filter_tag_ne (by decide : Quad.Growth ≠ Quad.Overhead),
      List.append_nil, List.nil_append, List.map_map]
    simpa [Function.comp] using key _ _ hcap hw
  | Growth =>
    simp only [List.filter_append, filter_tag_self,
      filter_tag_ne (by decide : Quad.Cost ≠ Quad.Growth),
      filter_tag_ne (by decide : Quad.Revenue ≠ Quad.Growth),
      filter_tag_ne (by decide : Quad.Overhead ≠ Quad.Growth),
      List.nil_append, List.map_map]
    simpa [Function.comp] using key _ _ hcap hw

/-- Witness for C1: the fresh engine over `ℚ` (all queues empty, so the
positivity hypothesis holds vacuously), with a constant rotation modifier. -/
theorem scheduled_weight_le_capacity_witness :
    ((((stepCore (fun _ => (1:ℚ)) 1000 initState).1.scheduled.filter
        (fun e => e.1 = Quad.Cost)).map (fun e => e.2.2.weight)).sum)
      ≤ (stepCore (fun _ => (1:ℚ)) 1000 initState).1.capOf Quad.Cost :=
  scheduled_weight_le_capacity (fun _ => (1:ℚ)) 1000 initState Quad.Cost
    (by simp [initState, initQuadrant, EngineState.quad])

/-- C9: In every tick, each lane is visited at most once and only head items
are pulled, so a category schedules at most `LANES_PER_QUAD` (8) items per
tick, and no single lane loses more than one item. -/
theorem at_most_one_item_per_lane {α : Type} [LinearOrderedField α] [FloorRing α]
    (rmOf : α → α) (raw : α) (st : EngineState α) (q : Quad) :
    ((stepCore rmOf raw st).1.scheduled.filter (fun e => e.1 = q)).length
        ≤ LANES_PER_QUAD ∧
    ∀ i : Nat, (((st.quad q).lanes.get? i).map (fun L => L.queue.length)).getD 0 ≤
      ((((stepCore rmOf raw st).2.quad q).lanes.get? i).map
          (fun L => L.queue.length)).getD 0 + 1 := by
  constructor
  · rw [scheduled_filter, List.length_map]
    have h := pullPass_length_le
      (quadCap (rmOf (tickCounterRotation 1 st.angle))
        ((massShareUpdate st (weightsFn (sqrtRatio : α))).quad q))
      (rotOrder (((massShareUpdate st (weightsFn (sqrtRatio : α))).quad q).rrIdx
        % LANES_PER_QUAD))
      0 ((massShareUpdate st (weightsFn (sqrtRatio : α))).quad q).lanes
    rw [rotOrder_length] at h
    simpa [stepQuad] using h
  · intro i
    rw [stepCore_quad]
    simp only [stepQuad]
    rcases pullPass_lane_spec
      (quadCap (rmOf (tickCounterRotation 1 st.angle))
        ((massShareUpdate st (weightsFn (sqrtRatio : α))).quad q))
      (rotOrder (((massShareUpdate st (weightsFn (sqrtRatio : α))).quad q).rrIdx
        % LANES_PER_QUAD))
      0 ((massShareUpdate st (weightsFn (sqrtRatio : α))).quad q).lanes
      (rotOrder_nodup _) i with h | ⟨L, hd, tl, hget, hq, hnew, _⟩
    · rw [h, massShareUpdate_lanes]
      exact Nat.le_succ _
    · rw [hnew]
      rw [massShareUpdate_lanes] at hget
      rw [hget]
      simp [hq]

/-- C2: One `step` call only ever removes a lane's head item: every lane
either keeps its queue unchanged, or exactly its head is removed and that
head appears in the tick's schedule (tagged with the category and lane id).
Iterated over successive ticks this is the FIFO property: items leave a
lane in enqueue order, never reordered, split, or mutated. -/
theorem step_removes_only_lane_head {α : Type} [LinearOrderedField α] [FloorRing α]
    (rmOf : α → α) (raw : α) (st : EngineState α) (q : Quad) (i : Nat)
    (L : Lane α) (hd : Item α) (tl : List (Item α))
    (hL : (st.quad q).lanes.get? i = some L) (hq : L.queue = hd :: tl) :
    (((stepCore rmOf raw st).2.quad q).lanes.get? i = some L) ∨
    ((((stepCore rmOf raw st).2.quad q).lanes.get? i = some { L with queue := tl }) ∧
      (q, L.id, hd) ∈ (stepCore rmOf raw st).1.scheduled) := by
  rw [stepCore_quad]
  have hL' : ((massShareUpdate st (weightsFn (sqrtRatio : α))).quad q).lanes.get? i
      = some L := by
    rw [massShareUpdate_lanes]
    exact hL
  rcases pullPass_lane_spec
    (quadCap (rmOf (tickCounterRotation 1 st.angle))
      ((massShareUpdate st (weightsFn (sqrtRatio : α))).quad q))
    (rotOrder (((massShareUpdate st (weightsFn (sqrtRatio : α))).quad q).rrIdx
      % LANES_PER_QUAD))
    0 ((massShareUpdate st (weightsFn (sqrtRatio : α))).quad q).lanes
    (rotOrder_nodup _) i with h | ⟨L', hd', tl', hget, hq', hnew, hmem⟩
  · left
    simp only [stepQuad]
    rw [h]
    exact hL'
  · have hLL : L' = L := by
      rw [hget] at hL'
      exact Option.some.inj hL'
    rw [hLL] at hq' hnew hmem
    rw [hq] at hq'
    have hhd : hd = hd' := (List.cons.inj hq').1
    have htl : tl = tl' := (List.cons.inj hq').2
    subst hhd
    subst htl
    right
    refine ⟨by simpa [stepQuad] using hnew, ?_⟩
    have hfil : (q, L.id, hd) ∈
        (stepCore rmOf raw st).1.scheduled.filter (fun e => e.1 = q) := by
      rw [scheduled_filter]
      exact List.mem_map_of_mem _ (by simpa [stepQuad] using hmem)
    exact List.mem_of_mem_filter hfil

/-- Witness for C2: over `ℚ`, enqueue one item into a fresh engine; lane 0 of
Cost then holds exactly that item as its head. -/
theorem step_removes_only_lane_head_witness :
    ((((stepCore (fun _ => (1:ℚ)) 1000
        (enqueueCore .Cost ⟨"a", (1:ℚ)⟩ none initState)).2.quad .Cost).lanes.get? 0
      = some { id := "C0", queue := [⟨"a", (1:ℚ)⟩], active := true })) ∨
    (((((stepCore (fun _ => (1:ℚ)) 1000
        (enqueueCore .Cost ⟨"a", (1:ℚ)⟩ none initState)).2.quad .Cost).lanes.get? 0
      = some { id := "C0", queue := ([] : List (Item ℚ)), active := true })) ∧
      ((Quad.Cost, "C0", (⟨"a", (1:ℚ)⟩ : Item ℚ)) ∈
        (stepCore (fun _ => (1:ℚ)) 1000
          (enqueueCore .Cost ⟨"a", (1:ℚ)⟩ none initState)).1.scheduled)) :=
  step_removes_only_lane_head (fun _ => (1:ℚ)) 1000
    (enqueueCore .Cost ⟨"a", (1:ℚ)⟩ none initState) .Cost 0
    { id := "C0", queue := [⟨"a", (1:ℚ)⟩], active := true } ⟨"a", (1:ℚ)⟩ []
    rfl rfl

/-- C3: Each `step` advances a category's round-robin cursor by exactly one
position modulo the lane count, independently of how many lanes were
serviced; consequently over any 8 consecutive ticks each lane index is the
starting (cursor) lane exactly once. -/
theorem cursor_advances_by_one {α : Type} [LinearOrderedField α] [FloorRing α]
    (rmOf : α → α) (raw : α) (st : EngineState α) (q : Quad)
    (rms : Nat → α → α) (raws : Nat → α) (j : Nat) (hj : j < LANES_PER_QUAD) :
    ((stepCore rmOf raw st).2.quad q).rrIdx
        = ((st.quad q).rrIdx % LANES_PER_QUAD + 1) % LANES_PER_QUAD ∧
    ((Finset.range LANES_PER_QUAD).filter
        (fun t => startIdx (stepSeq rms raws t st) q = j)).card = 1 := by
  have hadv : ∀ (rm : α → α) (rw : α) (s : EngineState α),
      ((stepCore rm rw s).2.quad q).rrIdx
        = ((s.quad q).rrIdx % LANES_PER_QUAD + 1) % LANES_PER_QUAD := by
    intro rm rw s
    rw [stepCore_quad]
    simp [stepQuad, massShareUpdate_rrIdx]
  refine ⟨hadv rmOf raw st, ?_⟩
  have hstart : ∀ (rm : α → α) (rw : α) (s : EngineState α),
      startIdx (stepCore rm rw s).2 q = (startIdx s q + 1) % LANES_PER_QUAD := by
    intro rm rw s
    unfold startIdx
    rw [hadv]
    simp only [LANES_PER_QUAD]
    omega
  have hiter : ∀ t : Nat, startIdx (stepSeq rms raws t st) q
      = (startIdx st q + t) % LANES_PER_QUAD := by
    intro t
    induction t with
    | zero =>
      have hlt : startIdx st q < LANES_PER_QUAD := by
        unfold startIdx
        exact Nat.mod_lt _ (by decide)
      simp [stepSeq, Nat.mod_eq_of_lt hlt]
    | succ t ih =>
      show startIdx (stepCore (rms t) (raws t) (stepSeq rms raws t st)).2 q = _
      rw [hstart, ih]
      simp only [LANES_PER_QUAD]
      omega
  have hs : startIdx st q < LANES_PER_QUAD := by
    unfold startIdx
    exact Nat.mod_lt _ (by decide)
  have key : ∀ s' j' : Fin 8,
      ((Finset.range 8).filter (fun t => (s'.val + t) % 8 = j'.val)).card = 1 := by
    decide
  have hcongr : (Finset.range LANES_PER_QUAD).filter
        (fun t => startIdx (stepSeq rms raws t st) q = j)
      = (Finset.range LANES_PER_QUAD).filter
        (fun t => (startIdx st q + t) % LANES_PER_QUAD = j) := by
    apply Finset.filter_congr
    intro t _
    simp [hiter t]
  rw [hcongr]
  have hk := key ⟨startIdx st q, by simpa [LANES_PER_QUAD] using hs⟩
    ⟨j, by simpa [LANES_PER_QUAD] using hj⟩
  simpa [LANES_PER_QUAD] using hk

/-- C8: In the demo scenario of `src/re.py` (4 categories × 8 lanes,
priorities 0.95/1.25/0.80/1.10, ratio 4.39, 40/30/18/26 unit-weight items,
oscillator starting at angle 0), after the first `step(1000)`:
each category's scheduled count equals `⌊capacity⌋` for that tick
(4 for Cost, 0 for Revenue — its capacity is the floor 0.5 —, 2 for
Overhead, 0 for Growth), and each category's backlog decreases by exactly
that count. -/
theorem backpressure_first_tick :
    ((((stepR 1000 demoInit).1.scheduled.filter (fun e => e.1 = Quad.Cost)).length : ℤ)
        = ⌊(stepR 1000 demoInit).1.capOf Quad.Cost⌋) ∧
    ((((stepR 1000 demoInit).1.scheduled.filter (fun e => e.1 = Quad.Revenue)).length : ℤ)
        = ⌊(stepR 1000 demoInit).1.capOf Quad.Revenue⌋) ∧
    ((((stepR 1000 demoInit).1.scheduled.filter (fun e => e.1 = Quad.Overhead)).length : ℤ)
        = ⌊(stepR 1000 demoInit).1.capOf Quad.Overhead⌋) ∧
    ((((stepR 1000 demoInit).1.scheduled.filter (fun e => e.1 = Quad.Growth)).length : ℤ)
        = ⌊(stepR 1000 demoInit).1.capOf Quad.Growth⌋) ∧
    (backlogOf (stepR 1000 demoInit).2 Quad.Cost
        + ((stepR 1000 demoInit).1.scheduled.filter (fun e => e.1 = Quad.Cost)).length
        = backlogOf demoInit Quad.Cost) ∧
    (backlogOf (stepR 1000 demoInit).2 Quad.Revenue
        + ((stepR 1000 demoInit).1.scheduled.filter (fun e => e.1 = Quad.Revenue)).length
        = backlogOf demoInit Quad.Revenue) ∧
    (backlogOf (stepR 1000 demoInit).2 Quad.Overhead
        + ((stepR 1000 demoInit).1.scheduled.filter (fun e => e.1 = Quad.Overhead)).length
        = backlogOf demoInit Quad.Overhead) ∧
    (backlogOf (stepR 1000 demoInit).2 Quad.Growth
        + ((stepR 1000 demoInit).1.scheduled.filter (fun e => e.1 = Quad.Growth)).length
        = backlogOf demoInit Quad.Growth) := by
  have hang : tickCounterRotation 1 demoInit.angle = (0.459:ℝ) := by
    have h0 : demoInit.angle = (0:ℝ) := rfl
    rw [h0]
    exact first_tick_angle
  -- the unit-head lane preconditions for the four categories
  have hunitC : ∀ i, i < LANES_PER_QUAD → ∃ L,
      ((massShareUpdate demoInit (weightsFn (sqrtRatio:ℝ))).quad Quad.Cost).lanes.get? i
        = some L ∧ L.active = true ∧ ∃ hd tl, L.queue = hd :: tl ∧ hd.weight = 1 := by
    rw [massShareUpdate_lanes]
    exact unit_lanes_of_facts _ (by decide) (by decide) rfl
  have hunitR : ∀ i, i < LANES_PER_QUAD → ∃ L,
      ((massShareUpdate demoInit (weightsFn (sqrtRatio:ℝ))).quad Quad.Revenue).lanes.get? i
        = some L ∧ L.active = true ∧ ∃ hd tl, L.queue = hd :: tl ∧ hd.weight = 1 := by
    rw [massShareUpdate_lanes]
    exact unit_lanes_of_facts _ (by decide) (by decide) rfl
  have hunitO : ∀ i, i < LANES_PER_QUAD → ∃ L,
      ((massShareUpdate demoInit (weightsFn (sqrtRatio:ℝ))).quad Quad.Overhead).lanes.get? i
        = some L ∧ L.active = true ∧ ∃ hd tl, L.queue = hd :: tl ∧ hd.weight = 1 := by
    rw [massShareUpdate_lanes]
    exact unit_lanes_of_facts _ (by decide) (by decide) rfl
  have hunitG : ∀ i, i < LANES_PER_QUAD → ∃ L,
      ((massShareUpdate demoInit (weightsFn (sqrtRatio:ℝ))).quad Quad.Growth).lanes.get? i
        = some L ∧ L.active = true ∧ ∃ hd tl, L.queue = hd :: tl ∧ hd.weight = 1 := by
    rw [massShareUpdate_lanes]
    exact unit_lanes_of_facts _ (by decide) (by decide) rfl
  -- scheduled counts per category
  have hppC : (stepQuad (quadCap (rotMod 0.459)
      ((massShareUpdate demoInit (weightsFn (sqrtRatio:ℝ))).quad Quad.Cost))
      ((massShareUpdate demoInit (weightsFn (sqrtRatio:ℝ))).quad Quad.Cost)).1.length = 4 := by
    refine stepQuad_unit_count _ _ 4 hunitC ?_ ?_ (by norm_num [LANES_PER_QUAD])
    · exact_mod_cast demo_cap_Cost_bounds.1
    · have h := demo_cap_Cost_bounds.2
      push_cast
      linarith
  have hppR : (stepQuad (quadCap (rotMod 0.459)
      ((massShareUpdate demoInit (weightsFn (sqrtRatio:ℝ))).quad Quad.Revenue))
      ((massShareUpdate demoInit (weightsFn (sqrtRatio:ℝ))).quad Quad.Revenue)).1.length = 0 := by
    refine stepQuad_unit_count _ _ 0 hunitR ?_ ?_ (by norm_num [LANES_PER_QUAD])
    · rw [demo_cap_Revenue_eq]
      norm_num
    · rw [demo_cap_Revenue_eq]
      norm_num
  have hppO : (stepQuad (quadCap (rotMod 0.459)
      ((massShareUpdate demoInit (weightsFn (sqrtRatio:ℝ))).quad Quad.Overhead))
      ((massShareUpdate demoInit (weightsFn (sqrtRatio:ℝ))).quad Quad.Overhead)).1.length = 2 := by
    refine stepQuad_unit_count _ _ 2 hunitO ?_ ?_ (by norm_num [LANES_PER_QUAD])
    · exact_mod_cast demo_cap_Overhead_bounds.1
    · have h := demo_cap_Overhead_bounds.2
      push_cast
      linarith
  have hppG : (stepQuad (quadCap (rotMod 0.459)
      ((massShareUpdate demoInit (weightsFn (sqrtRatio:ℝ))).quad Quad.Growth))
      ((massShareUpdate demoInit (weightsFn (sqrtRatio:ℝ))).quad Quad.Growth)).1.length = 0 := by
    refine stepQuad_unit_count _ _ 0 hunitG ?_ ?_ (by norm_num [LANES_PER_QUAD])
    · rw [demo_cap_Growth_eq]
      norm_num
    · rw [demo_cap_Growth_eq]
      norm_num
  have hcntC : ((stepR 1000 demoInit).1.scheduled.filter
      (fun e => e.1 = Quad.Cost)).length = 4 := by
    show ((stepCore rotMod 1000 demoInit).1.scheduled.filter
      (fun e => e.1 = Quad.Cost)).length = 4
    rw [scheduled_filter rotMod 1000 demoInit Quad.Cost, List.length_map, hang]
    exact hppC
  have hcntR : ((stepR 1000 demoInit).1.scheduled.filter
      (fun e => e.1 = Quad.Revenue)).length = 0 := by
    show ((stepCore rotMod 1000 demoInit).1.scheduled.filter
      (fun e => e.1 = Quad.Revenue)).length = 0
    rw [scheduled_filter rotMod 1000 demoInit Quad.Revenue, List.length_map, hang]
    exact hppR
  have hcntO : ((stepR 1000 demoInit).1.scheduled.filter
      (fun e => e.1 = Quad.Overhead)).length = 2 := by
    show ((stepCore rotMod 1000 demoInit).1.scheduled.filter
      (fun e => e.1 = Quad.Overhead)).length = 2
    rw [scheduled_filter rotMod 1000 demoInit Quad.Overhead, List.length_map, hang]
    exact hppO
  have hcntG : ((stepR 1000 demoInit).1.scheduled.filter
      (fun e => e.1 = Quad.Growth)).length = 0 := by
    show ((stepCore rotMod 1000 demoInit).1.scheduled.filter
      (fun e => e.1 = Quad.Growth)).length = 0
    rw [scheduled_filter rotMod 1000 demoInit Quad.Growth, List.length_map, hang]
    exact hppG
  -- reported capacities per category
  have hcapOfC : (stepR 1000 demoInit).1.capOf Quad.Cost
      = quadCap (rotMod 0.459)
        ((massShareUpdate demoInit (weightsFn (sqrtRatio:ℝ))).quad Quad.Cost) := by
    show (stepCore rotMod 1000 demoInit).1.capOf Quad.Cost = _
    rw [stepCore_capOf, hang]
  have hcapOfR : (stepR 1000 demoInit).1.capOf Quad.Revenue
      = quadCap (rotMod 0.459)
        ((massShareUpdate demoInit (weightsFn (sqrtRatio:ℝ))).quad Quad.Revenue) := by
    show (stepCore rotMod 1000 demoInit).1.capOf Quad.Revenue = _
    rw [stepCore_capOf, hang]
  have hcapOfO : (stepR 1000 demoInit).1.capOf Quad.Overhead
      = quadCap (rotMod 0.459)
        ((massShareUpdate demoInit (weightsFn (sqrtRatio:ℝ))).quad Quad.Overhead) := by
    show (stepCore rotMod 1000 demoInit).1.capOf Quad.Overhead = _
    rw [stepCore_capOf, hang]
  have hcapOfG : (stepR 1000 demoInit).1.capOf Quad.Growth
      = quadCap (rotMod 0.459)
        ((massShareUpdate demoInit (weightsFn (sqrtRatio:ℝ))).quad Quad.Growth) := by
    show (stepCore rotMod 1000 demoInit).1.capOf Quad.Growth = _
    rw [stepCore_capOf, hang]
  -- backlog bookkeeping per category
  have hbackC : backlogOf (stepR 1000 demoInit).2 Quad.Cost
      + ((stepR 1000 demoInit).1.scheduled.filter (fun e => e.1 = Quad.Cost)).length
      = backlogOf demoInit Quad.Cost := by
    rw [hcntC]
    show backlogOf (stepCore rotMod 1000 demoInit).2 Quad.Cost + 4
      = backlogOf demoInit Quad.Cost
    unfold backlogOf
    rw [stepCore_quad, hang]
    simp only [stepQuad]
    have hcount := pullPass_count (quadCap (rotMod 0.459)
        ((massShareUpdate demoInit (weightsFn (sqrtRatio:ℝ))).quad Quad.Cost))
      (rotOrder (((massShareUpdate demoInit (weightsFn (sqrtRatio:ℝ))).quad
        Quad.Cost).rrIdx % LANES_PER_QUAD))
      0 ((massShareUpdate demoInit (weightsFn (sqrtRatio:ℝ))).quad Quad.Cost).lanes
    have hlen : (pullPass (quadCap (rotMod 0.459)
        ((massShareUpdate demoInit (weightsFn (sqrtRatio:ℝ))).quad Quad.Cost))
      (rotOrder (((massShareUpdate demoInit (weightsFn (sqrtRatio:ℝ))).quad
        Quad.Cost).rrIdx % LANES_PER_QUAD))
      0 ((massShareUpdate demoInit (weightsFn (sqrtRatio:ℝ))).quad Quad.Cost).lanes).1.length
        = 4 := by
      simpa [stepQuad] using hppC
    rw [← massShareUpdate_lanes demoInit (sqrtRatio:ℝ) Quad.Cost]
    omega
  have hbackR : backlogOf (stepR 1000 demoInit).2 Quad.Revenue
      + ((stepR 1000 demoInit).1.scheduled.filter (fun e => e.1 = Quad.Revenue)).length
      = backlogOf demoInit Quad.Revenue := by
    rw [hcntR]
    show backlogOf (stepCore rotMod 1000 demoInit).2 Quad.Revenue + 0
      = backlogOf demoInit Quad.Revenue
    unfold backlogOf
    rw [stepCore_quad, hang]
    simp only [stepQuad]
    have hcount := pullPass_count (quadCap (rotMod 0.459)
        ((massShareUpdate demoInit (weightsFn (sqrtRatio:ℝ))).quad Quad.Revenue))
      (rotOrder (((massShareUpdate demoInit (weightsFn (sqrtRatio:ℝ))).quad
        Quad.Revenue).rrIdx % LANES_PER_QUAD))
      0 ((massShareUpdate demoInit (weightsFn (sqrtRatio:ℝ))).quad Quad.Revenue).lanes
    have hlen : (pullPass (quadCap (rotMod 0.459)
        ((massShareUpdate demoInit (weightsFn (sqrtRatio:ℝ))).quad Quad.Revenue))
      (rotOrder (((massShareUpdate demoInit (weightsFn (sqrtRatio:ℝ))).quad
        Quad.Revenue).rrIdx % LANES_PER_QUAD))
      0 ((massShareUpdate demoInit (weightsFn (sqrtRatio:ℝ))).quad Quad.Revenue).lanes).1.length
        = 0 := by
      simpa [stepQuad] using hppR
    rw [← massShareUpdate_lanes demoInit (sqrtRatio:ℝ) Quad.Revenue]
    omega
  have hbackO : backlogOf (stepR 1000 demoInit).2 Quad.Overhead
      + ((stepR 1000 demoInit).1.scheduled.filter (fun e => e.1 = Quad.Overhead)).length
      = backlogOf demoInit Quad.Overhead := by
    rw [hcntO]
    show backlogOf (stepCore rotMod 1000 demoInit).2 Quad.Overhead + 2
      = backlogOf demoInit Quad.Overhead
    unfold backlogOf
    rw [stepCore_quad, hang]
    simp only [stepQuad]
    have hcount := pullPass_count (quadCap (rotMod 0.459)
        ((massShareUpdate demoInit (weightsFn (sqrtRatio:ℝ))).quad Quad.Overhead))
      (rotOrder (((massShareUpdate demoInit (weightsFn (sqrtRatio:ℝ))).quad
        Quad.Overhead).rrIdx % LANES_PER_QUAD))
      0 ((massShareUpdate demoInit (weightsFn (sqrtRatio:ℝ))).quad Quad.Overhead).lanes
    have hlen : (pullPass (quadCap (rotMod 0.459)
        ((massShareUpdate demoInit (weightsFn (sqrtRatio:ℝ))).quad Quad.Overhead))
      (rotOrder (((massShareUpdate demoInit (weightsFn (sqrtRatio:ℝ))).quad
        Quad.Overhead).rrIdx % LANES_PER_QUAD))
      0 ((massShareUpdate demoInit (weightsFn (sqrtRatio:ℝ))).quad Quad.Overhead).lanes).1.length
        = 2 := by
      simpa [stepQuad] using hppO
    rw [← massShareUpdate_lanes demoInit (sqrtRatio:ℝ) Quad.Overhead]
    omega
  have hbackG : backlogOf (stepR 1000 demoInit).2 Quad.Growth
      + ((stepR 1000 demoInit).1.scheduled.filter (fun e => e.1 = Quad.Growth)).length
      = backlogOf demoInit Quad.Growth := by
    rw [hcntG]
    show backlogOf (stepCore rotMod 1000 demoInit).2 Quad.Growth + 0
      = backlogOf demoInit Quad.Growth
    unfold backlogOf
    rw [stepCore_quad, hang]
    simp only [stepQuad]
    have hcount := pullPass_count (quadCap (rotMod 0.459)
        ((massShareUpdate demoInit (weightsFn (sqrtRatio:ℝ))).quad Quad.Growth))
      (rotOrder (((massShareUpdate demoInit (weightsFn (sqrtRatio:ℝ))).quad
        Quad.Growth).rrIdx % LANES_PER_QUAD))
      0 ((massShareUpdate demoInit (weightsFn (sqrtRatio:ℝ))).quad Quad.Growth).lanes
    have hlen : (pullPass (quadCap (rotMod 0.459)
        ((massShareUpdate demoInit (weightsFn (sqrtRatio:ℝ))).quad Quad.Growth))
      (rotOrder (((massShareUpdate demoInit (weightsFn (sqrtRatio:ℝ))).quad
        Quad.Growth).rrIdx % LANES_PER_QUAD))
      0 ((massShareUpdate demoInit (weightsFn (sqrtRatio:ℝ))).quad Quad.Growth).lanes).1.length
        = 0 := by
      simpa [stepQuad] using hppG
    rw [← massShareUpdate_lanes demoInit (sqrtRatio:ℝ) Quad.Growth]
    omega
  refine ⟨?_, ?_, ?_, ?_, hbackC, hbackR, hbackO, hbackG⟩
  · rw [hcntC, hcapOfC]
    have hfl : ⌊quadCap (rotMod 0.459)
        ((massShareUpdate demoInit (weightsFn (sqrtRatio:ℝ))).quad Quad.Cost)⌋ = (4:ℤ) := by
      rw [Int.floor_eq_iff]
      constructor
      · exact_mod_cast demo_cap_Cost_bounds.1
      · have h := demo_cap_Cost_bounds.2
        push_cast
        linarith
    rw [hfl]
    norm_num
  · rw [hcntR, hcapOfR, demo_cap_Revenue_eq]
    have hfl : ⌊(0.5:ℝ)⌋ = (0:ℤ) := by
      rw [Int.floor_eq_iff]
      constructor
      · norm_num
      · norm_num
    rw [hfl]
    norm_num
  · rw [hcntO, hcapOfO]
    have hfl : ⌊quadCap (rotMod 0.459)
        ((massShareUpdate demoInit (weightsFn (sqrtRatio:ℝ))).quad Quad.Overhead)⌋ = (2:ℤ) := by
      rw [Int.floor_eq_iff]
      constructor
      · exact_mod_cast demo_cap_Overhead_bounds.1
      · have h := demo_cap_Overhead_bounds.2
        push_cast
        linarith
    rw [hfl]
    norm_num
  · rw [hcntG, hcapOfG, demo_cap_Growth_eq]
    have hfl : ⌊(0.5:ℝ)⌋ = (0:ℤ) := by
      rw [Int.floor_eq_iff]
      constructor
      · norm_num
      · norm_num
    rw [hfl]
    norm_num

/-- Witness for C3: fresh `ℚ` engine, category Cost, lane index 5. -/
theorem cursor_advances_by_one_witness :
    ((stepCore (fun _ => (1:ℚ)) 1000 initState).2.quad Quad.Cost).rrIdx
        = (((initState : EngineState ℚ).quad Quad.Cost).rrIdx % LANES_PER_QUAD + 1)
          % LANES_PER_QUAD ∧
    ((Finset.range LANES_PER_QUAD).filter
        (fun t => startIdx (stepSeq (fun _ _ => (1:ℚ)) (fun _ => 1000) t
          initState) Quad.Cost = 5)).card = 1 :=
  cursor_advances_by_one (fun _ => (1:ℚ)) 1000 initState .Cost
    (fun _ _ => (1:ℚ)) (fun _ => 1000) 5 (by decide)

end Olivia
